import Mathlib

/- Shallow embedding of the MIR inlining pass (librustc_mir/transform/inline.rs):
   the data model, the cost estimator and admission policy (should_inline), the
   argument materialization (make_call_args, cast_box_free_arg) and the
   Integrator that splices a callee body into a caller body (inline_call).

   External compiler services that the pass consumes as black boxes (type
   substitution, attribute lookup, layout and needs-drop queries, span
   validity, lang items) are modelled as oracle functions collected in a Ctx
   structure.  Panics (bug!, assert!, out-of-range indexing) are modelled by
   returning none.  The final CopyPropagation invocation inside inline_call is
   an external opaque transform (explicitly out of scope in the specification)
   and is not part of the embedded inline_call. -/

namespace MirInline

inductive Abi where
  | RustIntrinsic
  | PlatformIntrinsic
  | Rust
  | C
deriving DecidableEq

inductive InlineAttr where
  | Always
  | Hint
  | Never
  | None
deriving DecidableEq

/- Types: only the structure inspected by the pass is represented (TyFnDef with
   its ABI, the box/raw-pointer/reference forms destructured by the box_free
   special case); every other type is an abstract constant. -/
inductive Ty where
  | FnDef (defId : Nat) (substs : Nat) (abi : Abi)
  | TyBox (pointee : Ty)
  | TyRawPtr (pointee : Ty)
  | TyRef (mutbl : Bool) (pointee : Ty)
  | TyAbstract (n : Nat)
deriving DecidableEq

inductive Literal where
  | Item (defId : Nat) (substs : Nat)
  | Value (v : Nat)
  | Promoted (index : Nat)
deriving DecidableEq

structure Constant where
  span : Nat
  ty : Ty
  literal : Literal
deriving DecidableEq

structure SourceInfo where
  span : Nat
  scope : Nat
deriving DecidableEq

mutual
inductive Lvalue where
  | Var (i : Nat)
  | Temp (i : Nat)
  | Arg (i : Nat)
  | Static (defId : Nat)
  | ReturnPointer
  | Projection (base : Lvalue) (elem : ProjElem)
deriving DecidableEq

inductive ProjElem where
  | Deref
  | Field (n : Nat)
  | Index (operand : Operand)
  | ConstantIndex (offset : Nat)
deriving DecidableEq

inductive Operand where
  | Consume (lv : Lvalue)
  | Constant (c : Constant)
deriving DecidableEq
end

inductive Region where
  | ReErased
deriving DecidableEq

inductive BorrowKind where
  | Shared
  | Unique
  | Mut
deriving DecidableEq

inductive CastKind where
  | Misc
  | ReifyFnPointer
  | Unsize
deriving DecidableEq

inductive Rvalue where
  | Use (operand : Operand)
  | Ref (region : Region) (bk : BorrowKind) (lv : Lvalue)
  | Cast (ck : CastKind) (operand : Operand) (ty : Ty)
  | Len (lv : Lvalue)
  | BinaryOp (op : Nat) (lhs rhs : Operand)
  | UnaryOp (op : Nat) (operand : Operand)
  | Aggregate (kind : Nat) (operands : List Operand)
deriving DecidableEq

inductive StatementKind where
  | Assign (lv : Lvalue) (rv : Rvalue)
  | SetDiscriminant (lv : Lvalue) (variantIndex : Nat)
  | StorageLive (lv : Lvalue)
  | StorageDead (lv : Lvalue)
  | Nop
deriving DecidableEq

structure Statement where
  source_info : SourceInfo
  kind : StatementKind
deriving DecidableEq

inductive TerminatorKind where
  | Goto (target : Nat)
  | If (cond : Operand) (targets : Nat × Nat)
  | Switch (discr : Lvalue) (targets : List Nat)
  | SwitchInt (discr : Lvalue) (values : List Nat) (targets : List Nat)
  | Drop (location : Lvalue) (target : Nat) (unwind : Option Nat)
  | DropAndReplace (location : Lvalue) (value : Operand) (target : Nat) (unwind : Option Nat)
  | Call (func : Operand) (args : List Operand)
      (destination : Option (Lvalue × Nat)) (cleanup : Option Nat)
  | Assert (cond : Operand) (expected : Bool) (target : Nat) (cleanup : Option Nat)
  | Resume
  | Return
  | Unreachable
deriving DecidableEq

structure Terminator where
  source_info : SourceInfo
  kind : TerminatorKind
deriving DecidableEq

structure BasicBlockData where
  statements : List Statement
  terminator : Terminator
  is_cleanup : Bool
deriving DecidableEq

structure VisibilityScopeData where
  span : Nat
  parent_scope : Option Nat
deriving DecidableEq

structure VarDecl where
  ty : Ty
  source_info : SourceInfo
deriving DecidableEq

structure TempDecl where
  ty : Ty
deriving DecidableEq

structure Mir where
  basic_blocks : List BasicBlockData
  visibility_scopes : List VisibilityScopeData
  promoted : List Nat
  return_ty : Ty
  var_decls : List VarDecl
  arg_decls : List Ty
  temp_decls : List TempDecl
  upvar_decls : Nat
  span : Nat
deriving DecidableEq

/- The declaration tables an Lvalue is typed against (Mir::var_decls,
   arg_decls, temp_decls, return_ty); statements and terminators play no role
   in Lvalue::ty. -/
structure LocalDecls where
  var_tys : List Ty
  arg_tys : List Ty
  temp_tys : List Ty
  return_ty : Ty
deriving DecidableEq

def Mir.localDecls (m : Mir) : LocalDecls :=
  { var_tys := m.var_decls.map (fun v => v.ty)
    arg_tys := m.arg_decls
    temp_tys := m.temp_decls.map (fun t => t.ty)
    return_ty := m.return_ty }

structure CallSite where
  caller : Nat
  callee : Nat
  substs : Nat
  bb : Nat
  location : SourceInfo
deriving DecidableEq

/- Oracles for the compiler services the pass consumes (tcx queries, codemap,
   lang items, data layout).  DefIds, substitutions, parameter environments and
   spans are abstract naturals. -/
structure Ctx where
  trait_of_item : Nat → Bool
  inline_attr : Nat → InlineAttr
  has_cold_attr : Nat → Bool
  def_id_is_local : Nat → Bool
  substs_types_count : Nat → Nat
  subst_ty : Nat → Ty → Ty
  lvalue_ty : LocalDecls → Lvalue → Ty
  type_needs_drop : Nat → Ty → Bool
  type_size_of : Nat → Ty → Option Nat
  param_env_for_item : Nat → Nat
  pointer_size : Nat
  is_valid_span : Nat → Bool
  box_free_fn : Option Nat

def DEFAULT_THRESHOLD : Nat := 50
def HINT_THRESHOLD : Nat := 100
def INSTR_COST : Nat := 5
def CALL_PENALTY : Nat := 25
def UNKNOWN_SIZE_COST : Nat := 10
def START_BLOCK : Nat := 0

/- Terminator::successors(): every block index referenced by a terminator,
   including unwind and cleanup edges. -/
def TerminatorKind.successors : TerminatorKind → List Nat
  | .Goto target => [target]
  | .If _ targets => [targets.1, targets.2]
  | .Switch _ targets => targets
  | .SwitchInt _ _ targets => targets
  | .Resume => []
  | .Return => []
  | .Unreachable => []
  | .Call _ _ (some d) (some c) => [d.2, c]
  | .Call _ _ (some d) none => [d.2]
  | .Call _ _ none (some c) => [c]
  | .Call _ _ none none => []
  | .DropAndReplace _ _ t (some u) => [t, u]
  | .DropAndReplace _ _ t none => [t]
  | .Drop _ t (some u) => [t, u]
  | .Drop _ t none => [t]
  | .Assert _ _ t (some c) => [t, c]
  | .Assert _ _ t none => [t]

def TerminatorKind.is_drop : TerminatorKind → Bool
  | .Drop _ _ _ => true
  | .DropAndReplace _ _ _ _ => true
  | _ => false

/- The pattern of the guarded match arm for diverging functions:
   Unreachable, or Call with destination None. -/
def TerminatorKind.diverging_pattern : TerminatorKind → Bool
  | .Unreachable => true
  | .Call _ _ none _ => true
  | _ => false

/- Statement cost inside the traversal of should_inline: StorageLive,
   StorageDead and Nop are free, everything else costs INSTR_COST. -/
def statement_cost : StatementKind → Nat
  | .StorageLive _ => 0
  | .StorageDead _ => 0
  | .Nop => 0
  | _ => INSTR_COST

/- One terminator of the cost traversal: yields (cost delta, blocks pushed
   onto the work list in push order, updated threshold), following the match
   in should_inline.  The Drop arms push target, then unwind when the dropped
   type needs a destructor; all other arms push term.successors() afterwards
   (is_drop is false for them). -/
def terminator_step (ctx : Ctx) (cs : CallSite) (param_env : Nat) (decls : LocalDecls)
    (k : TerminatorKind) (threshold : Nat) (first_block : Bool) : Nat × List Nat × Nat :=
  match k with
  | .Drop location target unwind =>
    let ty := ctx.subst_ty cs.substs (ctx.lvalue_ty decls location)
    if ctx.type_needs_drop param_env ty then
      (CALL_PENALTY, target :: unwind.toList, threshold)
    else
      (INSTR_COST, [target], threshold)
  | .DropAndReplace location _ target unwind =>
    let ty := ctx.subst_ty cs.substs (ctx.lvalue_ty decls location)
    if ctx.type_needs_drop param_env ty then
      (CALL_PENALTY, target :: unwind.toList, threshold)
    else
      (INSTR_COST, [target], threshold)
  | k =>
    if first_block && k.diverging_pattern then
      (0, k.successors, 0)
    else
      let delta :=
        match k with
        | .Call (.Constant f) _ _ _ =>
          match f.ty with
          | .FnDef _ _ abi =>
            if abi = Abi.RustIntrinsic ∨ abi = Abi.PlatformIntrinsic then INSTR_COST
            else CALL_PENALTY
          | _ => 0
        | .Assert _ _ _ _ => CALL_PENALTY
        | _ => INSTR_COST
      (delta, k.successors, threshold)

/- The work-list traversal of should_inline.  The work list is a stack whose
   top is the list head; visited is the set of already-scored blocks; the
   threshold is zeroed when the first visited block matches the diverging
   pattern.  A block index outside the body (a panic in the source) is
   skipped. -/
def cost_traversal (ctx : Ctx) (cs : CallSite) (param_env : Nat) (mir : Mir) :
    List Nat → List Nat → Nat → Nat → Bool → Nat × Nat
  | [], _, cost, threshold, _ => (cost, threshold)
  | bb :: work_list, visited, cost, threshold, first_block =>
    if bb ∈ visited then
      cost_traversal ctx cs param_env mir work_list visited cost threshold first_block
    else if h : bb < mir.basic_blocks.length then
      cost_traversal ctx cs param_env mir
        ((terminator_step ctx cs param_env mir.localDecls
            (mir.basic_blocks[bb]).terminator.kind threshold first_block).2.1.foldl
          (fun w s => s :: w) work_list)
        (bb :: visited)
        (cost + ((mir.basic_blocks[bb]).statements.map (fun s => statement_cost s.kind)).sum
          + (terminator_step ctx cs param_env mir.localDecls
              (mir.basic_blocks[bb]).terminator.kind threshold first_block).1)
        (terminator_step ctx cs param_env mir.localDecls
          (mir.basic_blocks[bb]).terminator.kind threshold first_block).2.2
        false
    else
      cost_traversal ctx cs param_env mir work_list visited cost threshold first_block
termination_by wl visited _ _ _ =>
  (((Finset.range mir.basic_blocks.length).filter (fun i => i ∉ visited)).card, wl.length)
decreasing_by
  · exact Prod.Lex.right _ (Nat.lt_succ_self _)
  · apply Prod.Lex.left
    apply Finset.card_lt_card
    rw [Finset.ssubset_iff_of_subset]
    · refine ⟨bb, ?_, ?_⟩
      · simp only [Finset.mem_filter, Finset.mem_range]
        refine ⟨h, by assumption⟩
      · simp
    · intro x hx
      simp only [Finset.mem_filter, Finset.mem_range, List.mem_cons] at hx ⊢
      exact ⟨hx.1, fun hc => hx.2 (Or.inr hc)⟩
  · exact Prod.Lex.right _ (Nat.lt_succ_self _)

/- Cost of local variable and temporary slots: size in machine words when the
   layout is known, otherwise UNKNOWN_SIZE_COST. -/
def local_decls_cost (ctx : Ctx) (cs : CallSite) (param_env : Nat) (mir : Mir) : Nat :=
  (mir.var_decls.map (fun v =>
    match ctx.type_size_of param_env (ctx.subst_ty cs.substs v.ty) with
    | some size => size / ctx.pointer_size
    | none => UNKNOWN_SIZE_COST)).sum
  + (mir.temp_decls.map (fun t =>
    match ctx.type_size_of param_env (ctx.subst_ty cs.substs t.ty) with
    | some size => size / ctx.pointer_size
    | none => UNKNOWN_SIZE_COST)).sum

/- Inliner::should_inline. -/
def should_inline (ctx : Ctx) (cs : CallSite) (callee_mir : Mir) : Bool :=
  if callee_mir.upvar_decls > 0 then false
  else if ctx.trait_of_item cs.callee then false
  else
    match ctx.inline_attr cs.callee with
    | .Never => false
    | hint =>
      let hinted : Bool :=
        match hint with
        | .Always => true
        | .Hint => true
        | _ => false
      if ctx.def_id_is_local cs.callee ∧ ctx.substs_types_count cs.substs = 0 ∧ hinted = false then
        false
      else
        let threshold := if hinted then HINT_THRESHOLD else DEFAULT_THRESHOLD
        let threshold := if ctx.has_cold_attr cs.callee then threshold / 5 else threshold
        let threshold :=
          if callee_mir.basic_blocks.length ≤ 3 then threshold + threshold / 4 else threshold
        let param_env := ctx.param_env_for_item cs.caller
        let r := cost_traversal ctx cs param_env callee_mir [START_BLOCK] [] 0 threshold true
        let cost := r.1 + local_decls_cost ctx cs param_env callee_mir
        if hint = InlineAttr.Always then true else cost ≤ r.2

/- Update the block at index bb of a body (out of range indices leave the
   body unchanged; the source would panic there). -/
def update_block (m : Mir) (bb : Nat) (f : BasicBlockData → BasicBlockData) : Mir :=
  match m.basic_blocks.get? bb with
  | some bd => { m with basic_blocks := m.basic_blocks.set bb (f bd) }
  | none => m

/- caller_mir[bb].statements.push(s). -/
def push_stmt (m : Mir) (bb : Nat) (s : Statement) : Mir :=
  update_block m bb (fun bd => { bd with statements := bd.statements ++ [s] })

/- caller_mir[bb].terminator = Some(t). -/
def set_block_terminator (m : Mir) (bb : Nat) (t : Terminator) : Mir :=
  update_block m bb (fun bd => { bd with terminator := t })

/- inline_call::dest_needs_borrow. -/
def dest_needs_borrow : Lvalue → Bool
  | .Projection base elem =>
    match elem with
    | .Deref => true
    | .Index _ => true
    | _ => dest_needs_borrow base
  | .Static _ => true
  | _ => false

/- Operand::ty. -/
def operand_ty (ctx : Ctx) (decls : LocalDecls) : Operand → Ty
  | .Consume lv => ctx.lvalue_ty decls lv
  | .Constant c => c.ty

/- Rvalue::ty, for the rvalue forms the pass builds (Use, Ref, Cast); the
   remaining forms are never typed by the pass. -/
def rvalue_ty (ctx : Ctx) (decls : LocalDecls) : Rvalue → Option Ty
  | .Use operand => some (operand_ty ctx decls operand)
  | .Ref _ bk lv =>
    some (.TyRef (match bk with | .Mut => true | _ => false) (ctx.lvalue_ty decls lv))
  | .Cast _ _ ty => some ty
  | _ => none

/- The destination set-up of inline_call: when dest_needs_borrow holds for the
   destination lvalue, push a fresh temporary t = &mut dest into the callsite
   block and use *t, otherwise use the destination directly. -/
def make_dest (ctx : Ctx) (cs : CallSite) (m : Mir) (dest_lv : Lvalue) : Mir × Lvalue :=
  if dest_needs_borrow dest_lv then
    let dest := Rvalue.Ref .ReErased .Mut dest_lv
    let ty := (rvalue_ty ctx m.localDecls dest).getD (.TyAbstract 0)
    let tmp_idx := m.temp_decls.length
    let m := { m with temp_decls := m.temp_decls ++ [{ ty := ty }] }
    let tmp := Lvalue.Temp tmp_idx
    let m := push_stmt m cs.bb { source_info := cs.location, kind := .Assign tmp dest }
    (m, Lvalue.Projection tmp .Deref)
  else
    (m, dest_lv)

/- Inliner::make_call_args: keep operands that already consume a temporary,
   copy every other operand (constants included) into a fresh temporary. -/
def make_call_args (ctx : Ctx) (cs : CallSite) : List Operand → Mir → Mir × List Operand
  | [], m => (m, [])
  | .Consume (.Temp i) :: rest, m =>
    let r := make_call_args ctx cs rest m
    (r.1, .Consume (.Temp i) :: r.2)
  | a :: rest, m =>
    let arg := Rvalue.Use a
    let ty := (rvalue_ty ctx m.localDecls arg).getD (.TyAbstract 0)
    let tmp_idx := m.temp_decls.length
    let m := { m with temp_decls := m.temp_decls ++ [{ ty := ty }] }
    let m := push_stmt m cs.bb { source_info := cs.location, kind := .Assign (.Temp tmp_idx) arg }
    let r := make_call_args ctx cs rest m
    (r.1, .Consume (.Temp tmp_idx) :: r.2)

/- Inliner::cast_box_free_arg: take a mutable reference to *arg, cast it to a
   raw mutable pointer to the pointee type, consume the cast temporary.  An
   argument type that is neither box, raw pointer nor reference is a bug in
   the source (modelled by none). -/
def cast_box_free_arg (ctx : Ctx) (arg : Lvalue) (ptr_ty : Ty) (cs : CallSite) (m : Mir) :
    Option (Mir × Operand) :=
  let arg_rv := Rvalue.Ref .ReErased .Mut (Lvalue.Projection arg .Deref)
  let ty := (rvalue_ty ctx m.localDecls arg_rv).getD (.TyAbstract 0)
  let ref_tmp_idx := m.temp_decls.length
  let m := { m with temp_decls := m.temp_decls ++ [{ ty := ty }] }
  let ref_tmp := Lvalue.Temp ref_tmp_idx
  let m := push_stmt m cs.bb { source_info := cs.location, kind := .Assign ref_tmp arg_rv }
  let pointee :=
    match ptr_ty with
    | .TyBox ty => some ty
    | .TyRawPtr ty => some ty
    | .TyRef _ ty => some ty
    | _ => none
  match pointee with
  | none => none
  | some pointee =>
    let ptr_ty := Ty.TyRawPtr pointee
    let raw_ptr := Rvalue.Cast .Misc (.Consume ref_tmp) ptr_ty
    let cast_tmp_idx := m.temp_decls.length
    let m := { m with temp_decls := m.temp_decls ++ [{ ty := ptr_ty }] }
    let m := push_stmt m cs.bb
      { source_info := cs.location, kind := .Assign (.Temp cast_tmp_idx) raw_ptr }
    some (m, Operand.Consume (.Temp cast_tmp_idx))

/- The state of the mutating visitor that integrates callee blocks into the
   caller. -/
structure Integrator where
  block_idx : Nat
  args : List Operand
  var_map : List Nat
  tmp_map : List Nat
  scope_map : List Nat
  promoted_map : List Nat
  callsite : CallSite
  destination : Lvalue
  return_block : Nat
  cleanup_block : Option Nat
  in_cleanup_block : Bool

def update_target (st : Integrator) (tgt : Nat) : Nat :=
  tgt + st.block_idx

def update_span (ctx : Ctx) (st : Integrator) (span : Nat) : Nat :=
  if ctx.is_valid_span span then span else st.callsite.location.span

/- Integrator::visit_visibility_scope: scope = scope_map[scope] (an index
   outside the map is a panic in the source). -/
def visit_scope (st : Integrator) (scope : Nat) : Option Nat :=
  st.scope_map.get? scope

def visit_source_info (ctx : Ctx) (st : Integrator) (si : SourceInfo) : Option SourceInfo :=
  match visit_scope st si.scope with
  | none => none
  | some scope => some { span := update_span ctx st si.span, scope := scope }

/- Integrator::visit_literal: remap promoted indices. -/
def visit_literal (st : Integrator) : Literal → Literal
  | .Promoted index =>
    match st.promoted_map.get? index with
    | some p => .Promoted p
    | none => .Promoted index
  | l => l

def visit_constant (ctx : Ctx) (st : Integrator) (c : Constant) : Constant :=
  { span := update_span ctx st c.span, ty := c.ty, literal := visit_literal st c.literal }

mutual
/- Integrator::visit_lvalue: remap Var and Temp indices, replace the return
   pointer by the destination, replace Arg i by the lvalue consumed by the
   i-th argument operand (anything else there is a bug in the source,
   modelled by none). -/
def visit_lvalue (ctx : Ctx) (st : Integrator) : Lvalue → Option Lvalue
  | .Var i => some (.Var ((st.var_map.get? i).getD i))
  | .Temp i => some (.Temp ((st.tmp_map.get? i).getD i))
  | .ReturnPointer => some st.destination
  | .Arg i =>
    match st.args.get? i with
    | some (.Consume lv) => some lv
    | _ => none
  | .Static defId => some (.Static defId)
  | .Projection base elem =>
    match visit_lvalue ctx st base with
    | none => none
    | some base =>
      match visit_proj_elem ctx st elem with
      | none => none
      | some elem => some (.Projection base elem)

def visit_proj_elem (ctx : Ctx) (st : Integrator) : ProjElem → Option ProjElem
  | .Deref => some .Deref
  | .Field n => some (.Field n)
  | .ConstantIndex o => some (.ConstantIndex o)
  | .Index operand =>
    match visit_operand ctx st operand with
    | none => none
    | some operand => some (.Index operand)

/- Integrator::visit_operand: an operand consuming Arg i becomes the i-th
   argument operand itself (constants are preserved); everything else is
   visited structurally. -/
def visit_operand (ctx : Ctx) (st : Integrator) : Operand → Option Operand
  | .Consume (.Arg i) => st.args.get? i
  | .Consume lv =>
    match visit_lvalue ctx st lv with
    | none => none
    | some lv => some (.Consume lv)
  | .Constant c => some (.Constant (visit_constant ctx st c))
end

/- List.mapM for Option, written out so the proofs can recurse on it. -/
def mapOption (f : α → Option β) : List α → Option (List β)
  | [] => some []
  | a :: rest =>
    match f a with
    | none => none
    | some b =>
      match mapOption f rest with
      | none => none
      | some bs => some (b :: bs)

def visit_rvalue (ctx : Ctx) (st : Integrator) : Rvalue → Option Rvalue
  | .Use operand =>
    match visit_operand ctx st operand with
    | none => none
    | some operand => some (.Use operand)
  | .Ref region bk lv =>
    match visit_lvalue ctx st lv with
    | none => none
    | some lv => some (.Ref region bk lv)
  | .Cast ck operand ty =>
    match visit_operand ctx st operand with
    | none => none
    | some operand => some (.Cast ck operand ty)
  | .Len lv =>
    match visit_lvalue ctx st lv with
    | none => none
    | some lv => some (.Len lv)
  | .BinaryOp o lhs rhs =>
    match visit_operand ctx st lhs with
    | none => none
    | some lhs =>
      match visit_operand ctx st rhs with
      | none => none
      | some rhs => some (.BinaryOp o lhs rhs)
  | .UnaryOp o operand =>
    match visit_operand ctx st operand with
    | none => none
    | some operand => some (.UnaryOp o operand)
  | .Aggregate kind operands =>
    match mapOption (visit_operand ctx st) operands with
    | none => none
    | some operands => some (.Aggregate kind operands)

def visit_statement (ctx : Ctx) (st : Integrator) (s : Statement) : Option Statement :=
  match visit_source_info ctx st s.source_info with
  | none => none
  | some si =>
    let kind :=
      match s.kind with
      | .Assign lv rv =>
        match visit_lvalue ctx st lv with
        | none => none
        | some lv =>
          match visit_rvalue ctx st rv with
          | none => none
          | some rv => some (StatementKind.Assign lv rv)
      | .SetDiscriminant lv n =>
        match visit_lvalue ctx st lv with
        | none => none
        | some lv => some (StatementKind.SetDiscriminant lv n)
      | .StorageLive lv =>
        match visit_lvalue ctx st lv with
        | none => none
        | some lv => some (StatementKind.StorageLive lv)
      | .StorageDead lv =>
        match visit_lvalue ctx st lv with
        | none => none
        | some lv => some (StatementKind.StorageDead lv)
      | .Nop => some StatementKind.Nop
    match kind with
    | none => none
    | some kind => some { source_info := si, kind := kind }

/- The unwind / cleanup edge handling shared by the Drop, DropAndReplace,
   Call and Assert arms of Integrator::visit_terminator_kind: a present edge
   is relocated by the block offset; an absent edge is populated with the
   callsite cleanup edge unless the block is a cleanup block. -/
def unwind_update (st : Integrator) : Option Nat → Option Nat
  | some tgt => some (update_target st tgt)
  | none => if st.in_cleanup_block then none else st.cleanup_block

/- Integrator::visit_terminator_kind: visit the contained operands and
   lvalues, relocate every successor index by the block offset, populate
   absent unwind edges, turn Return into a goto to the post-call block and
   Resume into a goto to the callsite cleanup block when there is one. -/
def visit_terminator_kind (ctx : Ctx) (st : Integrator) : TerminatorKind → Option TerminatorKind
  | .Goto target => some (.Goto (update_target st target))
  | .If cond targets =>
    match visit_operand ctx st cond with
    | none => none
    | some cond =>
      some (.If cond (update_target st targets.1, update_target st targets.2))
  | .Switch discr targets =>
    match visit_lvalue ctx st discr with
    | none => none
    | some discr => some (.Switch discr (targets.map (update_target st)))
  | .SwitchInt discr values targets =>
    match visit_lvalue ctx st discr with
    | none => none
    | some discr => some (.SwitchInt discr values (targets.map (update_target st)))
  | .Drop location target unwind =>
    match visit_lvalue ctx st location with
    | none => none
    | some location =>
      some (.Drop location (update_target st target) (unwind_update st unwind))
  | .DropAndReplace location value target unwind =>
    match visit_lvalue ctx st location with
    | none => none
    | some location =>
      match visit_operand ctx st value with
      | none => none
      | some value =>
        some (.DropAndReplace location value (update_target st target) (unwind_update st unwind))
  | .Call func args destination cleanup =>
    match visit_operand ctx st func with
    | none => none
    | some func =>
      match mapOption (visit_operand ctx st) args with
      | none => none
      | some args =>
        let destination :=
          match destination with
          | some (lv, tgt) =>
            match visit_lvalue ctx st lv with
            | none => none
            | some lv => some (some (lv, update_target st tgt))
          | none => some none
        match destination with
        | none => none
        | some destination =>
          some (.Call func args destination (unwind_update st cleanup))
  | .Assert cond expected target cleanup =>
    match visit_operand ctx st cond with
    | none => none
    | some cond =>
      some (.Assert cond expected (update_target st target) (unwind_update st cleanup))
  | .Return => some (.Goto st.return_block)
  | .Resume =>
    match st.cleanup_block with
    | some tgt => some (.Goto tgt)
    | none => some .Resume
  | .Unreachable => some .Unreachable

def visit_terminator (ctx : Ctx) (st : Integrator) (t : Terminator) : Option Terminator :=
  match visit_source_info ctx st t.source_info with
  | none => none
  | some si =>
    match visit_terminator_kind ctx st t.kind with
    | none => none
    | some kind => some { source_info := si, kind := kind }

/- Integrator::visit_basic_block_data: set the cleanup flag for the duration
   of the block, visit statements then the terminator. -/
def visit_basic_block_data (ctx : Ctx) (st : Integrator) (data : BasicBlockData) :
    Option BasicBlockData :=
  let st := { st with in_cleanup_block := data.is_cleanup }
  match mapOption (visit_statement ctx st) data.statements with
  | none => none
  | some statements =>
    match visit_terminator ctx st data.terminator with
    | none => none
    | some terminator =>
      some { statements := statements, terminator := terminator, is_cleanup := data.is_cleanup }

/- Scope integration of inline_call: root callee scopes are re-parented under
   the callsite scope and given the callee span; invalid spans are replaced by
   the callsite span; each scope is appended to the caller table and its new
   index recorded. -/
def integrate_scopes (ctx : Ctx) (cs : CallSite) (callee_span : Nat) :
    List VisibilityScopeData → Mir → Mir × List Nat
  | [], caller => (caller, [])
  | scope :: rest, caller =>
    let scope :=
      if scope.parent_scope = none then
        { scope with parent_scope := some cs.location.scope, span := callee_span }
      else scope
    let scope :=
      if ctx.is_valid_span scope.span then scope else { scope with span := cs.location.span }
    let idx := caller.visibility_scopes.length
    let caller := { caller with visibility_scopes := caller.visibility_scopes ++ [scope] }
    let r := integrate_scopes ctx cs callee_span rest caller
    (r.1, idx :: r.2)

/- Var integration of inline_call: rewrite each callee var scope through
   scope_map, fix invalid spans, append to the caller table. -/
def integrate_vars (ctx : Ctx) (cs : CallSite) (scope_map : List Nat) :
    List VarDecl → Mir → Option (Mir × List Nat)
  | [], caller => some (caller, [])
  | var :: rest, caller =>
    match scope_map.get? var.source_info.scope with
    | none => none
    | some scope =>
      let span :=
        if ctx.is_valid_span var.source_info.span then var.source_info.span
        else cs.location.span
      let var := { var with source_info := { span := span, scope := scope } }
      let idx := caller.var_decls.length
      let caller := { caller with var_decls := caller.var_decls ++ [var] }
      match integrate_vars ctx cs scope_map rest caller with
      | none => none
      | some r => some (r.1, idx :: r.2)

def integrate_temps : List TempDecl → Mir → Mir × List Nat
  | [], caller => (caller, [])
  | t :: rest, caller =>
    let idx := caller.temp_decls.length
    let caller := { caller with temp_decls := caller.temp_decls ++ [t] }
    let r := integrate_temps rest caller
    (r.1, idx :: r.2)

def integrate_promoted : List Nat → Mir → Mir × List Nat
  | [], caller => (caller, [])
  | p :: rest, caller =>
    let idx := caller.promoted.length
    let caller := { caller with promoted := caller.promoted ++ [p] }
    let r := integrate_promoted rest caller
    (r.1, idx :: r.2)

/- Inliner::inline_call.  Returns some (false, caller) when the callsite is
   refused (self-inline, or a terminator that is not a Call with a
   destination; in the latter case the taken terminator is stored back),
   some (true, caller) on success, and none where the source would report an
   internal compiler error.  The trailing CopyPropagation run is an external
   opaque transform and is not modelled. -/
def inline_call (ctx : Ctx) (cs : CallSite) (caller_mir : Mir) (callee_mir : Mir) :
    Option (Bool × Mir) :=
  if cs.caller = cs.callee then some (false, caller_mir)
  else
    match caller_mir.basic_blocks.get? cs.bb with
    | none => none
    | some blk =>
      match blk.terminator.kind with
      | .Call _func args (some destination) cleanup =>
        let is_box_free := ctx.box_free_fn = some cs.callee
        let sres := integrate_scopes ctx cs callee_mir.span callee_mir.visibility_scopes caller_mir
        match integrate_vars ctx cs sres.2 callee_mir.var_decls sres.1 with
        | none => none
        | some vres =>
          let tres := integrate_temps callee_mir.temp_decls vres.1
          let pres := integrate_promoted callee_mir.promoted tres.1
          let dres := make_dest ctx cs pres.1 destination.1
          let ares : Option (Mir × List Operand) :=
            if is_box_free then
              match args with
              | [a] =>
                match a with
                | .Consume lval =>
                  let ptr_ty := operand_ty ctx dres.1.localDecls (.Consume lval)
                  match cast_box_free_arg ctx lval ptr_ty cs dres.1 with
                  | none => none
                  | some r => some (r.1, [r.2])
                | .Constant _ => none
              | _ => none
            else some (make_call_args ctx cs args dres.1)
          match ares with
          | none => none
          | some ares =>
            let bb_len := ares.1.basic_blocks.length
            let st : Integrator :=
              { block_idx := bb_len
                args := ares.2
                var_map := vres.2
                tmp_map := tres.2
                scope_map := sres.2
                promoted_map := pres.2
                callsite := cs
                destination := dres.2
                return_block := destination.2
                cleanup_block := cleanup
                in_cleanup_block := false }
            match mapOption (visit_basic_block_data ctx st) callee_mir.basic_blocks with
            | none => none
            | some new_blocks =>
              let caller := { ares.1 with basic_blocks := ares.1.basic_blocks ++ new_blocks }
              let caller := set_block_terminator caller cs.bb
                { source_info := cs.location, kind := .Goto bb_len }
              some (true, caller)
      | kind =>
        some (false, set_block_terminator caller_mir cs.bb
          { source_info := blk.terminator.source_info, kind := kind })

/- ------------------------------------------------------------------ -/
/- Specification-side definitions, written from the wording of the
   claims, to be compared with the code-side definitions above. -/
/- ------------------------------------------------------------------ -/

/- Spec: the callee diverges when the first visited block (always the entry
   block) ends in Unreachable or in a Call with no destination. -/
def callee_diverges (mir : Mir) : Bool :=
  match mir.basic_blocks.get? START_BLOCK with
  | some blk => blk.terminator.kind.diverging_pattern
  | none => false

/- Spec threshold of claim C1: 100 for hint or always, else 50; divided by 5
   for cold callees; increased by a quarter for callees with at most three
   blocks; zero for diverging callees. -/
def spec_threshold (ctx : Ctx) (cs : CallSite) (mir : Mir) : Nat :=
  let t :=
    if ctx.inline_attr cs.callee = InlineAttr.Hint ∨ ctx.inline_attr cs.callee = InlineAttr.Always
    then HINT_THRESHOLD else DEFAULT_THRESHOLD
  let t := if ctx.has_cold_attr cs.callee then t / 5 else t
  let t := if mir.basic_blocks.length ≤ 3 then t + t / 4 else t
  if callee_diverges mir then 0 else t

/- The cost computed by the cost estimator: the work-list traversal from the
   entry block plus the size cost of local slots (the threshold input is
   irrelevant to the first component). -/
def estimated_cost (ctx : Ctx) (cs : CallSite) (mir : Mir) : Nat :=
  (cost_traversal ctx cs (ctx.param_env_for_item cs.caller) mir [START_BLOCK] [] 0 0 true).1
    + local_decls_cost ctx cs (ctx.param_env_for_item cs.caller) mir

/- Some projection element along the path of the lvalue is a Deref or an
   Index. -/
def has_deref_or_index : Lvalue → Bool
  | .Projection base elem =>
    (match elem with | .Deref => true | .Index _ => true | _ => false)
      || has_deref_or_index base
  | _ => false

/- The literal reading of claim C5: the destination lvalue is itself a
   Static, or some projection element along its path is a Deref or Index. -/
def claim_needs_borrow (lv : Lvalue) : Bool :=
  (match lv with | .Static _ => true | _ => false) || has_deref_or_index lv

/- The base at the root of the projection path is a Static. -/
def base_is_static : Lvalue → Bool
  | .Static _ => true
  | .Projection base _ => base_is_static base
  | _ => false

/- The non-Drop rows of claim C7 read literally: a Call whose func is a
   constant of function type costs by ABI, an Assert costs CALL_PENALTY, and
   any other terminator costs INSTR_COST. -/
def claim_term_cost : TerminatorKind → Nat
  | .Call (.Constant f) _ _ _ =>
    match f.ty with
    | .FnDef _ _ abi =>
      if abi = Abi.RustIntrinsic ∨ abi = Abi.PlatformIntrinsic then INSTR_COST
      else CALL_PENALTY
    | _ => INSTR_COST
  | .Assert _ _ _ _ => CALL_PENALTY
  | _ => INSTR_COST

/- The amended non-Drop cost table: as claim C7, except that a Call whose
   func is a constant that is not of function type contributes 0. -/
def amended_term_cost : TerminatorKind → Nat
  | .Call (.Constant f) _ _ _ =>
    match f.ty with
    | .FnDef _ _ abi =>
      if abi = Abi.RustIntrinsic ∨ abi = Abi.PlatformIntrinsic then INSTR_COST
      else CALL_PENALTY
    | _ => 0
  | .Assert _ _ _ _ => CALL_PENALTY
  | _ => INSTR_COST

/- Invariant of claim C3: every block index referenced by any terminator of
   the body is strictly below the block count. -/
def targets_ok (m : Mir) : Bool :=
  m.basic_blocks.all
    (fun bd => bd.terminator.kind.successors.all
      (fun t => decide (t < m.basic_blocks.length)))

def is_consume : Operand → Bool
  | .Consume _ => true
  | .Constant _ => false

/- Relation between block tables before and after the statement-pushing steps
   of inline_call: same length, every block other than the callsite block
   unchanged, and the callsite block changed only by appending statements. -/
def stmt_ext (bs bs' : List BasicBlockData) (bb : Nat) : Prop :=
  bs'.length = bs.length ∧
  (∀ i, i ≠ bb → bs'.get? i = bs.get? i) ∧
  (∀ bd, bs.get? bb = some bd → ∃ bd', bs'.get? bb = some bd' ∧
    bd'.terminator = bd.terminator ∧ bd'.is_cleanup = bd.is_cleanup ∧
    ∃ extra, bd'.statements = bd.statements ++ extra)

/- The statement kinds the claims call free: StorageLive, StorageDead, Nop. -/
def is_free_statement : StatementKind → Bool
  | .StorageLive _ => true
  | .StorageDead _ => true
  | .Nop => true
  | _ => false

def is_call_with_dest : TerminatorKind → Bool
  | .Call _ _ (some _) _ => true
  | _ => false

/- ------------------------------------------------------------------ -/
/- Concrete fixtures used by the witnesses and counterexamples. -/
/- ------------------------------------------------------------------ -/

def ctx0 : Ctx :=
  { trait_of_item := fun _ => false
    inline_attr := fun _ => InlineAttr.None
    has_cold_attr := fun _ => false
    def_id_is_local := fun _ => false
    substs_types_count := fun _ => 0
    subst_ty := fun _ ty => ty
    lvalue_ty := fun _ _ => .TyAbstract 0
    type_needs_drop := fun _ _ => false
    type_size_of := fun _ _ => some 8
    param_env_for_item := fun _ => 0
    pointer_size := 8
    is_valid_span := fun _ => true
    box_free_fn := none }

def si0 : SourceInfo := { span := 0, scope := 0 }

/- A basic block with source info si0 on its terminator. -/
def mkBlock (ss : List Statement) (k : TerminatorKind) (c : Bool) : BasicBlockData :=
  { statements := ss, terminator := { source_info := si0, kind := k }, is_cleanup := c }

/- A body with the given blocks, one root scope and no local slots. -/
def mkMir (bs : List BasicBlockData) : Mir :=
  { basic_blocks := bs
    visibility_scopes := [{ span := 0, parent_scope := none }]
    promoted := []
    return_ty := .TyAbstract 0
    var_decls := []
    arg_decls := []
    temp_decls := []
    upvar_decls := 0
    span := 0 }

/- A callee with a single Return block and one root scope. -/
def mir_ret : Mir := mkMir [mkBlock [] .Return false]

def cs0 : CallSite := { caller := 0, callee := 1, substs := 0, bb := 0, location := si0 }

/- A caller whose entry block calls def-id 1 with destination Var 0 and
   post-call block 1. -/
def caller0 : Mir :=
  mkMir
    [mkBlock []
      (.Call (.Constant { span := 0, ty := .FnDef 1 0 .Rust, literal := .Item 1 0 })
        [] (some (.Var 0, 1)) none) false,
     mkBlock [] .Return false]

def inlined0 : Mir :=
  match inline_call ctx0 cs0 caller0 mir_ret with
  | some r => r.2
  | none => caller0

/- A callsite aimed at the Return terminator of caller0 (not a Call): the
   integrator refuses it and restores the terminator. -/
def cs_refuse : CallSite := { caller := 0, callee := 1, substs := 0, bb := 1, location := si0 }

/- A callee whose upvar count is positive. -/
def mir_upvar : Mir :=
  { mir_ret with upvar_decls := 1 }

def demo_stmt : Statement :=
  { source_info := si0
    kind := .Assign (.Var 0) (.Use (.Constant { span := 0, ty := .TyAbstract 0, literal := .Value 0 })) }

/- Three blocks: the entry drops a location whose type does not need dropping
   (unwind edge to block 1), block 1 holds three costly statements and is
   reachable only through that unwind edge, block 2 returns. -/
def drop_demo_mir : Mir :=
  mkMir
    [mkBlock [] (.Drop (.Var 0) 2 (some 1)) false,
     mkBlock [demo_stmt, demo_stmt, demo_stmt] .Resume true,
     mkBlock [] .Return false]

/- An integrator state over one consumed argument, with a cleanup edge. -/
def st0 : Integrator :=
  { block_idx := 10
    args := [.Consume (.Var 5)]
    var_map := []
    tmp_map := []
    scope_map := [0]
    promoted_map := []
    callsite := cs0
    destination := .Var 0
    return_block := 1
    cleanup_block := some 7
    in_cleanup_block := false }

/- The same state without a cleanup edge, inside a callee cleanup block. -/
def st_cleanup : Integrator :=
  { st0 with cleanup_block := none, in_cleanup_block := true }

/- A Call terminator whose func is a constant that is not of function type. -/
def call_nonfn : TerminatorKind :=
  .Call (.Constant { span := 0, ty := .TyAbstract 7, literal := .Value 0 })
    [] (some (.Var 0, 1)) none

/- ------------------------------------------------------------------ -/
/- Theorems. -/
/- ------------------------------------------------------------------ -/

theorem dest_needs_borrow_eq :
    ∀ lv, dest_needs_borrow lv = (base_is_static lv || has_deref_or_index lv)
  | .Var _ => rfl
  | .Temp _ => rfl
  | .Arg _ => rfl
  | .Static _ => rfl
  | .ReturnPointer => rfl
  | .Projection base elem => by
    cases elem <;>
      simp [dest_needs_borrow, base_is_static, has_deref_or_index, dest_needs_borrow_eq base]

/-- C2: should_inline returns false, before any cost is computed, whenever
one of the first four gates fails: the callee has at least one upvar, or it
is a trait method, or its inline attribute is never, or it is local to the
translation unit while the callsite substitutions carry no generic type
argument and the callee has neither a hint nor an always attribute. -/
theorem c2_gates_reject (ctx : Ctx) (cs : CallSite) (mir : Mir)
    (h : 1 ≤ mir.upvar_decls ∨ ctx.trait_of_item cs.callee = true ∨
      ctx.inline_attr cs.callee = InlineAttr.Never ∨
      (ctx.def_id_is_local cs.callee = true ∧ ctx.substs_types_count cs.substs = 0 ∧
        ctx.inline_attr cs.callee ≠ InlineAttr.Always ∧
        ctx.inline_attr cs.callee ≠ InlineAttr.Hint)) :
    should_inline ctx cs mir = false := by
  unfold should_inline
  rcases h with h | h | h | h
  · simp [Nat.lt_of_lt_of_le Nat.zero_lt_one h]
  · by_cases hu : 0 < mir.upvar_decls <;> simp [hu, h]
  · by_cases hu : 0 < mir.upvar_decls
    · simp [hu]
    · by_cases ht : ctx.trait_of_item cs.callee <;> simp [hu, ht, h]
  · obtain ⟨hl, hc, ha, hh⟩ := h
    by_cases hu : 0 < mir.upvar_decls
    · simp [hu]
    · by_cases ht : ctx.trait_of_item cs.callee
      · simp [hu, ht]
      · cases hattr : ctx.inline_attr cs.callee with
        | Never => simp [hu, ht, hattr]
        | Always => exact absurd hattr ha
        | Hint => exact absurd hattr hh
        | None => simp [hu, ht, hattr, hl, hc]

theorem c2_gates_reject_witness : should_inline ctx0 cs0 mir_upvar = false :=
  c2_gates_reject ctx0 cs0 mir_upvar (Or.inl (by decide))

/-- C5 counterexample: for the destination lvalue (Static 0).field 0 the code
returns true, although the destination is not itself a Static and no
projection element along its path is a Deref or an Index, so the claim's
condition as stated is false there. -/
theorem c5_counterexample :
    dest_needs_borrow (.Projection (.Static 0) (.Field 0)) = true ∧
    claim_needs_borrow (.Projection (.Static 0) (.Field 0)) = false :=
  ⟨rfl, rfl⟩

/-- C5 (amended): dest_needs_borrow returns true iff the base at the root of
the destination's projection path is a Static or some projection element
along the path is a Deref or an Index; exactly when it returns true, the
integrator pushes one fresh caller temporary t of the mutable-reference type
of the destination, appends Assign(t, Ref(erased, Mut, dest)) to the
callsite block and uses *t as the effective destination, and otherwise it
uses the destination directly and leaves the caller untouched. -/
theorem c5_dest_borrow (ctx : Ctx) (cs : CallSite) (m : Mir) (lv : Lvalue) :
    (dest_needs_borrow lv = (base_is_static lv || has_deref_or_index lv)) ∧
    (dest_needs_borrow lv = true →
      make_dest ctx cs m lv =
        (push_stmt
          { m with temp_decls := m.temp_decls ++
              [{ ty := Ty.TyRef true (ctx.lvalue_ty m.localDecls lv) }] }
          cs.bb
          { source_info := cs.location
            kind := .Assign (.Temp m.temp_decls.length) (.Ref .ReErased .Mut lv) },
         Lvalue.Projection (.Temp m.temp_decls.length) .Deref)) ∧
    (dest_needs_borrow lv = false → make_dest ctx cs m lv = (m, lv)) := by
  refine ⟨dest_needs_borrow_eq lv, fun h => ?_, fun h => ?_⟩
  · simp [make_dest, h, rvalue_ty]
  · simp [make_dest, h]

theorem c5_dest_borrow_witness :
    make_dest ctx0 cs0 caller0 (.Static 3) =
      (push_stmt
        { caller0 with temp_decls := caller0.temp_decls ++
            [{ ty := Ty.TyRef true (ctx0.lvalue_ty caller0.localDecls (.Static 3)) }] }
        cs0.bb
        { source_info := cs0.location
          kind := .Assign (.Temp caller0.temp_decls.length) (.Ref .ReErased .Mut (.Static 3)) },
       Lvalue.Projection (.Temp caller0.temp_decls.length) .Deref) ∧
    make_dest ctx0 cs0 caller0 (.Var 0) = (caller0, .Var 0) :=
  ⟨(c5_dest_borrow ctx0 cs0 caller0 (.Static 3)).2.1 rfl,
   (c5_dest_borrow ctx0 cs0 caller0 (.Var 0)).2.2 rfl⟩

/-- C7 counterexample: a Call terminator whose func operand is a constant
that is not of function type is outside the Drop rows and is not the
diverging first block, yet the estimator adds 0 for it, not INSTR_COST = 5
as the claim's table requires for terminators outside its listed rows. -/
theorem c7_counterexample :
    (terminator_step ctx0 cs0 0 mir_ret.localDecls call_nonfn 50 false).1 = 0 ∧
    claim_term_cost call_nonfn = INSTR_COST ∧ (0 : Nat) ≠ INSTR_COST :=
  ⟨rfl, rfl, by decide⟩

/-- C7 (amended): every statement other than StorageLive, StorageDead and Nop
contributes INSTR_COST = 5 and those three contribute 0; outside the Drop
rows and the diverging-first-block case, a Call whose func is a constant of
function type contributes INSTR_COST = 5 for an intrinsic ABI and
CALL_PENALTY = 25 otherwise, a Call whose func is a constant not of function
type contributes 0, an Assert contributes CALL_PENALTY = 25, and any other
terminator contributes INSTR_COST = 5. -/
theorem c7_cost_table (ctx : Ctx) (cs : CallSite) (param_env : Nat) (decls : LocalDecls) :
    (∀ s : StatementKind,
      statement_cost s = if is_free_statement s then 0 else INSTR_COST) ∧
    (∀ (k : TerminatorKind) (thr : Nat) (first : Bool), k.is_drop = false →
      (first && k.diverging_pattern) = false →
      (terminator_step ctx cs param_env decls k thr first).1 = amended_term_cost k) := by
  constructor
  · intro s
    cases s <;> rfl
  · intro k thr first hdrop hdiv
    cases first
    · cases k <;>
        simp_all [terminator_step, amended_term_cost, TerminatorKind.is_drop]
    · simp only [Bool.true_and] at hdiv
      cases k <;>
        simp_all [terminator_step, amended_term_cost, TerminatorKind.is_drop,
          TerminatorKind.diverging_pattern]

/-- C4: during integration of callee blocks, Return becomes a Goto to the
callsite's post-call block; Resume becomes a Goto to the callsite cleanup
block when the callsite had one and stays Resume otherwise; on Drop,
DropAndReplace, Call and Assert a present unwind or cleanup edge is only
shifted by the block offset, while an absent edge is populated with the
callsite's cleanup edge unless the visited block is a callee cleanup block,
so terminators in cleanup blocks never acquire a new unwind edge. -/
theorem c4_edges (ctx : Ctx) (st : Integrator) :
    visit_terminator_kind ctx st .Return = some (.Goto st.return_block) ∧
    (∀ c, st.cleanup_block = some c →
      visit_terminator_kind ctx st .Resume = some (.Goto c)) ∧
    (st.cleanup_block = none → visit_terminator_kind ctx st .Resume = some .Resume) ∧
    (∀ loc tgt uw k', visit_terminator_kind ctx st (.Drop loc tgt uw) = some k' →
      ∃ loc', k' = .Drop loc' (tgt + st.block_idx)
        (match uw with
         | some u => some (u + st.block_idx)
         | none => if st.in_cleanup_block then none else st.cleanup_block)) ∧
    (∀ loc v tgt uw k',
      visit_terminator_kind ctx st (.DropAndReplace loc v tgt uw) = some k' →
      ∃ loc' v', k' = .DropAndReplace loc' v' (tgt + st.block_idx)
        (match uw with
         | some u => some (u + st.block_idx)
         | none => if st.in_cleanup_block then none else st.cleanup_block)) ∧
    (∀ f opds ds cl k', visit_terminator_kind ctx st (.Call f opds ds cl) = some k' →
      ∃ f' opds' ds', k' = .Call f' opds' ds'
        (match cl with
         | some u => some (u + st.block_idx)
         | none => if st.in_cleanup_block then none else st.cleanup_block)) ∧
    (∀ cond e tgt cl k', visit_terminator_kind ctx st (.Assert cond e tgt cl) = some k' →
      ∃ cond', k' = .Assert cond' e (tgt + st.block_idx)
        (match cl with
         | some u => some (u + st.block_idx)
         | none => if st.in_cleanup_block then none else st.cleanup_block)) := by
  refine ⟨rfl, ?_, ?_, ?_, ?_, ?_, ?_⟩
  · intro c hc
    simp [visit_terminator_kind, hc]
  · intro hc
    simp [visit_terminator_kind, hc]
  · intro loc tgt uw k' h
    simp only [visit_terminator_kind] at h
    repeat' split at h
    all_goals first
      | exact Option.noConfusion h
      | (cases h; exact ⟨_, by cases uw <;> rfl⟩)
  · intro loc v tgt uw k' h
    simp only [visit_terminator_kind] at h
    repeat' split at h
    all_goals first
      | exact Option.noConfusion h
      | (cases h; exact ⟨_, _, by cases uw <;> rfl⟩)
  · intro f opds ds cl k' h
    simp only [visit_terminator_kind] at h
    repeat' split at h
    all_goals first
      | exact Option.noConfusion h
      | (cases h; exact ⟨_, _, _, by cases cl <;> rfl⟩)
  · intro cond e tgt cl k' h
    simp only [visit_terminator_kind] at h
    repeat' split at h
    all_goals first
      | exact Option.noConfusion h
      | (cases h; exact ⟨_, by cases cl <;> rfl⟩)

theorem c4_edges_witness :
    visit_terminator_kind ctx0 st0 .Return = some (.Goto 1) ∧
    visit_terminator_kind ctx0 st0 .Resume = some (.Goto 7) ∧
    visit_terminator_kind ctx0 st_cleanup .Resume = some .Resume ∧
    visit_terminator_kind ctx0 st0 (.Drop (.Var 0) 2 none) =
      some (.Drop (.Var 0) 12 (some 7)) := by
  refine ⟨(c4_edges ctx0 st0).1, (c4_edges ctx0 st0).2.1 7 rfl,
    (c4_edges ctx0 st_cleanup).2.2.1 rfl, ?_⟩
  obtain ⟨loc', h⟩ :=
    (c4_edges ctx0 st0).2.2.2.1 (.Var 0) 2 none (.Drop (.Var 0) 12 (some 7)) rfl
  exact rfl

/-- C6: a Drop or DropAndReplace terminator whose dropped location's type,
substituted under the callsite's generic arguments, needs a destructor
contributes CALL_PENALTY = 25 and pushes its target and its unwind successor
(when present) onto the work list; otherwise it contributes INSTR_COST = 5
and pushes only its target; every non-Drop terminator pushes all its
successors; as a consequence, in the three-block demo body whose block 1 is
reachable only through the unwind edge of a non-dropping Drop, block 1 is
never scored and the estimated cost is 10. -/
theorem c6_drop_worklist (ctx : Ctx) (cs : CallSite) (param_env : Nat) (decls : LocalDecls) :
    (∀ (loc : Lvalue) (tgt : Nat) (uw : Option Nat) (thr : Nat) (first : Bool),
      terminator_step ctx cs param_env decls (.Drop loc tgt uw) thr first =
        if ctx.type_needs_drop param_env (ctx.subst_ty cs.substs (ctx.lvalue_ty decls loc))
        then (CALL_PENALTY, tgt :: uw.toList, thr)
        else (INSTR_COST, [tgt], thr)) ∧
    (∀ (loc : Lvalue) (v : Operand) (tgt : Nat) (uw : Option Nat) (thr : Nat) (first : Bool),
      terminator_step ctx cs param_env decls (.DropAndReplace loc v tgt uw) thr first =
        if ctx.type_needs_drop param_env (ctx.subst_ty cs.substs (ctx.lvalue_ty decls loc))
        then (CALL_PENALTY, tgt :: uw.toList, thr)
        else (INSTR_COST, [tgt], thr)) ∧
    (∀ (k : TerminatorKind) (thr : Nat) (first : Bool), k.is_drop = false →
      (terminator_step ctx cs param_env decls k thr first).2.1 = k.successors) ∧
    estimated_cost ctx0 cs0 drop_demo_mir = 10 := by
  refine ⟨fun loc tgt uw thr first => rfl, fun loc v tgt uw thr first => rfl, ?_, ?_⟩
  · intro k thr first hdrop
    cases k <;>
      first
        | (simp only [TerminatorKind.is_drop] at hdrop; exact Bool.noConfusion hdrop)
        | (simp only [terminator_step]; split <;> rfl)
  · simp [estimated_cost, cost_traversal, local_decls_cost, terminator_step, statement_cost,
      drop_demo_mir, mkMir, mkBlock, ctx0, demo_stmt, START_BLOCK, INSTR_COST, CALL_PENALTY,
      TerminatorKind.successors]

theorem c6_drop_worklist_witness :
    terminator_step ctx0 cs0 0 mir_ret.localDecls (.Drop (.Var 0) 2 (some 1)) 50 false =
      (INSTR_COST, [2], 50) ∧
    (terminator_step ctx0 cs0 0 mir_ret.localDecls (.Goto 4) 50 false).2.1 = [4] := by
  constructor
  · rw [(c6_drop_worklist ctx0 cs0 0 mir_ret.localDecls).1 (.Var 0) 2 (some 1) 50 false]
    rfl
  · exact (c6_drop_worklist ctx0 cs0 0 mir_ret.localDecls).2.2.1 (.Goto 4) 50 false rfl

/-- C10: every element of the materialized argument vector handed to the
Integrator is an Operand.Consume: make_call_args passes through operands that
already consume a temporary and replaces every other operand, constants
included, with a consume of a fresh temporary; the box_free special case
produces a consume of the cast temporary; consequently, when every stored
argument operand is a consume, the Integrator's internal-error branch for an
Arg lvalue whose stored operand is not a consume cannot be taken. -/
theorem c10_args_consume (ctx : Ctx) (cs : CallSite) :
    (∀ (args : List Operand) (m : Mir) (a : Operand),
      a ∈ (make_call_args ctx cs args m).2 → is_consume a = true) ∧
    (∀ (arg : Lvalue) (ptr_ty : Ty) (m m' : Mir) (op : Operand),
      cast_box_free_arg ctx arg ptr_ty cs m = some (m', op) → is_consume op = true) ∧
    (∀ st : Integrator, (∀ a ∈ st.args, is_consume a = true) →
      ∀ i, i < st.args.length → ∃ lv, visit_lvalue ctx st (.Arg i) = some lv) := by
  refine ⟨?_, ?_, ?_⟩
  · intro args
    induction args with
    | nil => intro m a ha; simp [make_call_args] at ha
    | cons a0 rest ih =>
      intro m a ha
      cases a0 with
      | Consume lv =>
        cases lv <;>
          (simp only [make_call_args, List.mem_cons] at ha
           rcases ha with rfl | ha
           · rfl
           · exact ih _ _ ha)
      | Constant c =>
        simp only [make_call_args, List.mem_cons] at ha
        rcases ha with rfl | ha
        · rfl
        · exact ih _ _ ha
  · intro arg ptr_ty m m' op h
    cases ptr_ty with
    | TyBox p =>
      simp only [cast_box_free_arg, Option.some.injEq, Prod.mk.injEq] at h
      exact h.2 ▸ rfl
    | TyRawPtr p =>
      simp only [cast_box_free_arg, Option.some.injEq, Prod.mk.injEq] at h
      exact h.2 ▸ rfl
    | TyRef mu p =>
      simp only [cast_box_free_arg, Option.some.injEq, Prod.mk.injEq] at h
      exact h.2 ▸ rfl
    | FnDef a b c => simp [cast_box_free_arg] at h
    | TyAbstract n => simp [cast_box_free_arg] at h
  · intro st hall i hi
    cases hg : st.args.get? i with
    | none =>
      have := List.get?_eq_none.mp hg
      omega
    | some a =>
      have hmem : a ∈ st.args := List.get?_mem hg
      have hc := hall a hmem
      cases a with
      | Consume lv =>
        refine ⟨lv, ?_⟩
        have hg2 : st.args[i]? = some (Operand.Consume lv) := by simpa using hg
        simp [visit_lvalue, hg2]
      | Constant c => simp [is_consume] at hc

theorem c10_args_consume_witness :
    visit_lvalue ctx0 st0 (.Arg 0) = some (.Var 5) ∧
    is_consume (.Consume (.Temp 0)) = true := by
  constructor
  · obtain ⟨lv, h⟩ := (c10_args_consume ctx0 cs0).2.2 st0 (by decide) 0 (by decide)
    exact rfl
  · exact (c10_args_consume ctx0 cs0).1
      [.Constant { span := 0, ty := .TyAbstract 0, literal := .Value 0 }] caller0
      (.Consume (.Temp 0)) (by decide)

theorem list_set_self {α : Type} :
    ∀ (l : List α) (i : Nat) (a : α), l.get? i = some a → l.set i a = l
  | [], i, a, h => by simp at h
  | x :: xs, 0, a, h => by simp_all
  | x :: xs, i + 1, a, h => by
    simp only [List.get?_cons_succ] at h
    simp [List.set, list_set_self xs i a h]

theorem set_block_terminator_self (m : Mir) (bb : Nat) (blk : BasicBlockData)
    (h : m.basic_blocks.get? bb = some blk) :
    set_block_terminator m bb blk.terminator = m := by
  unfold set_block_terminator update_block
  rw [h]
  show { m with basic_blocks := m.basic_blocks.set bb { blk with terminator := blk.terminator } } = m
  have h2 : ({ blk with terminator := blk.terminator } : BasicBlockData) = blk := rfl
  rw [h2, list_set_self _ _ _ h]

theorem inline_call_refuse_eq (ctx : Ctx) (cs : CallSite) (caller callee : Mir)
    (blk : BasicBlockData) (hcc : cs.caller ≠ cs.callee)
    (hget : caller.basic_blocks.get? cs.bb = some blk)
    (hnc : is_call_with_dest blk.terminator.kind = false) :
    inline_call ctx cs caller callee =
      some (false, set_block_terminator caller cs.bb blk.terminator) := by
  obtain ⟨stmts, ⟨si, k⟩, cf⟩ := blk
  unfold inline_call
  rw [if_neg hcc, hget]
  cases k
  case Call f args ds cl =>
    cases ds with
    | some d => simp [is_call_with_dest] at hnc
    | none => rfl
  all_goals rfl

/-- C8: whenever inline_call refuses an attempt, either through the
self-inline guard or because the callsite terminator is not a Call with a
destination, it returns false and the caller body is exactly as it was
before the attempt: the taken terminator is stored back unchanged and no
statements, temporaries, variables, scopes, promoted bodies or blocks have
been added. -/
theorem c8_refusal (ctx : Ctx) (cs : CallSite) (caller callee : Mir) :
    (cs.caller = cs.callee → inline_call ctx cs caller callee = some (false, caller)) ∧
    (∀ blk, caller.basic_blocks.get? cs.bb = some blk →
      is_call_with_dest blk.terminator.kind = false →
      inline_call ctx cs caller callee = some (false, caller)) := by
  constructor
  · intro h
    simp [inline_call, h]
  · intro blk hget hnc
    by_cases hcc : cs.caller = cs.callee
    · simp [inline_call, hcc]
    · rw [inline_call_refuse_eq ctx cs caller callee blk hcc hget hnc,
        set_block_terminator_self caller cs.bb blk hget]

theorem c8_refusal_witness :
    inline_call ctx0 { cs0 with callee := 0 } caller0 mir_ret = some (false, caller0) ∧
    inline_call ctx0 cs_refuse caller0 mir_ret = some (false, caller0) :=
  ⟨(c8_refusal ctx0 { cs0 with callee := 0 } caller0 mir_ret).1 rfl,
   (c8_refusal ctx0 cs_refuse caller0 mir_ret).2 (mkBlock [] .Return false) rfl rfl⟩

theorem terminator_step_thr_false (ctx : Ctx) (cs : CallSite) (param_env : Nat)
    (decls : LocalDecls) (k : TerminatorKind) (thr : Nat) :
    (terminator_step ctx cs param_env decls k thr false).2.2 = thr := by
  cases k
  case Drop loc tgt uw => simp only [terminator_step]; split <;> rfl
  case DropAndReplace loc v tgt uw => simp only [terminator_step]; split <;> rfl
  all_goals rfl

theorem terminator_step_thr_true (ctx : Ctx) (cs : CallSite) (param_env : Nat)
    (decls : LocalDecls) (k : TerminatorKind) (thr : Nat) :
    (terminator_step ctx cs param_env decls k thr true).2.2 =
      if k.diverging_pattern then 0 else thr := by
  cases k
  case Drop loc tgt uw => simp only [terminator_step]; split <;> rfl
  case DropAndReplace loc v tgt uw => simp only [terminator_step]; split <;> rfl
  case Call f a ds cl => cases ds <;> rfl
  all_goals rfl

theorem terminator_step_thr_irrel (ctx : Ctx) (cs : CallSite) (param_env : Nat)
    (decls : LocalDecls) (k : TerminatorKind) (thr thr' : Nat) (first : Bool) :
    (terminator_step ctx cs param_env decls k thr first).1 =
      (terminator_step ctx cs param_env decls k thr' first).1 ∧
    (terminator_step ctx cs param_env decls k thr first).2.1 =
      (terminator_step ctx cs param_env decls k thr' first).2.1 := by
  cases k <;>
    exact ⟨by simp only [terminator_step]; split <;> rfl,
           by simp only [terminator_step]; split <;> rfl⟩

theorem cost_traversal_thr_false (ctx : Ctx) (cs : CallSite) (param_env : Nat) (mir : Mir) :
    ∀ (wl visited : List Nat) (cost thr : Nat) (first : Bool), first = false →
      (cost_traversal ctx cs param_env mir wl visited cost thr first).2 = thr := by
  intro wl visited cost thr first
  induction wl, visited, cost, thr, first using cost_traversal.induct ctx cs param_env mir with
  | case1 visited cost thr first =>
    intro _
    simp [cost_traversal]
  | case2 bb wl visited cost thr first hmem ih =>
    intro hf
    conv_lhs => rw [cost_traversal]
    rw [if_pos hmem]
    exact ih hf
  | case3 bb wl visited cost thr first hmem hlt ih =>
    intro hf
    subst hf
    conv_lhs => rw [cost_traversal]
    rw [if_neg hmem, dif_pos hlt, ih rfl]
    exact terminator_step_thr_false ctx cs param_env mir.localDecls _ thr
  | case4 bb wl visited cost thr first hmem hlt ih =>
    intro hf
    conv_lhs => rw [cost_traversal]
    rw [if_neg hmem, dif_neg hlt]
    exact ih hf

theorem cost_traversal_cost_thr_irrel (ctx : Ctx) (cs : CallSite) (param_env : Nat) (mir : Mir) :
    ∀ (wl visited : List Nat) (cost thr thr' : Nat) (first : Bool),
      (cost_traversal ctx cs param_env mir wl visited cost thr first).1 =
        (cost_traversal ctx cs param_env mir wl visited cost thr' first).1 := by
  intro wl visited cost thr thr' first
  induction wl, visited, cost, thr, first using cost_traversal.induct ctx cs param_env mir
    generalizing thr' with
  | case1 visited cost thr first =>
    simp [cost_traversal]
  | case2 bb wl visited cost thr first hmem ih =>
    conv_lhs => rw [cost_traversal]
    conv_rhs => rw [cost_traversal]
    rw [if_pos hmem, if_pos hmem]
    exact ih thr'
  | case3 bb wl visited cost thr first hmem hlt ih =>
    conv_lhs => rw [cost_traversal]
    conv_rhs => rw [cost_traversal]
    rw [if_neg hmem, if_neg hmem, dif_pos hlt, dif_pos hlt]
    have h1 := (terminator_step_thr_irrel ctx cs param_env mir.localDecls
      (mir.basic_blocks[bb]).terminator.kind thr thr' first).1
    have h2 := (terminator_step_thr_irrel ctx cs param_env mir.localDecls
      (mir.basic_blocks[bb]).terminator.kind thr thr' first).2
    rw [← h1, ← h2]
    exact ih _
  | case4 bb wl visited cost thr first hmem hlt ih =>
    conv_lhs => rw [cost_traversal]
    conv_rhs => rw [cost_traversal]
    rw [if_neg hmem, if_neg hmem, dif_neg hlt, dif_neg hlt]
    exact ih thr'

theorem cost_traversal_entry_thr (ctx : Ctx) (cs : CallSite) (param_env : Nat) (mir : Mir)
    (thr : Nat) :
    (cost_traversal ctx cs param_env mir [START_BLOCK] [] 0 thr true).2 =
      if callee_diverges mir then 0 else thr := by
  conv_lhs => rw [cost_traversal]
  rw [if_neg (List.not_mem_nil START_BLOCK)]
  by_cases hlt : START_BLOCK < mir.basic_blocks.length
  · rw [dif_pos hlt]
    rw [cost_traversal_thr_false ctx cs param_env mir _ _ _ _ _ rfl]
    rw [terminator_step_thr_true]
    unfold callee_diverges
    have hget : mir.basic_blocks.get? START_BLOCK = some (mir.basic_blocks[START_BLOCK]) := by
      rw [List.get?_eq_getElem?]
      exact List.getElem?_eq_getElem hlt
    rw [hget]
  · rw [dif_neg hlt]
    rw [cost_traversal]
    unfold callee_diverges
    have hget : mir.basic_blocks.get? START_BLOCK = none :=
      List.get?_eq_none.mpr (Nat.le_of_not_lt hlt)
    rw [hget]
    rfl

theorem admission_eq (ctx : Ctx) (cs : CallSite) (mir : Mir) (thr2 : Nat) :
    decide ((cost_traversal ctx cs (ctx.param_env_for_item cs.caller) mir
        [START_BLOCK] [] 0 thr2 true).1
        + local_decls_cost ctx cs (ctx.param_env_for_item cs.caller) mir ≤
      (cost_traversal ctx cs (ctx.param_env_for_item cs.caller) mir
        [START_BLOCK] [] 0 thr2 true).2) =
    decide (estimated_cost ctx cs mir ≤ (if callee_diverges mir then 0 else thr2)) := by
  rw [cost_traversal_entry_thr]
  unfold estimated_cost
  rw [cost_traversal_cost_thr_irrel ctx cs (ctx.param_env_for_item cs.caller) mir
    [START_BLOCK] [] 0 thr2 0 true]

/-- C1: for every callsite that passes the first four gates, should_inline
computes threshold = 100 when the callee attribute is hint or always and 50
otherwise, divides it by 5 when the callee is cold, adds a quarter when the
callee has at most three blocks, forces it to 0 when the callee diverges
(its first visited block ends in Unreachable or a Call without destination),
and admits the callsite iff the estimated cost is at most this threshold,
except that an always attribute admits unconditionally. -/
theorem c1_admission (ctx : Ctx) (cs : CallSite) (mir : Mir)
    (h1 : mir.upvar_decls = 0)
    (h2 : ctx.trait_of_item cs.callee = false)
    (h3 : ctx.inline_attr cs.callee ≠ InlineAttr.Never)
    (h4 : ¬(ctx.def_id_is_local cs.callee = true ∧ ctx.substs_types_count cs.substs = 0 ∧
          ctx.inline_attr cs.callee ≠ InlineAttr.Always ∧
          ctx.inline_attr cs.callee ≠ InlineAttr.Hint)) :
    should_inline ctx cs mir =
      (if ctx.inline_attr cs.callee = InlineAttr.Always then true
       else decide (estimated_cost ctx cs mir ≤ spec_threshold ctx cs mir)) := by
  unfold should_inline
  have hg1 : ¬(mir.upvar_decls > 0) := by omega
  have hg2 : ¬(ctx.trait_of_item cs.callee = true) := by simp [h2]
  rw [if_neg hg1, if_neg hg2]
  cases hattr : ctx.inline_attr cs.callee with
  | Never => exact absurd hattr h3
  | Always =>
    have hgate : ¬(ctx.def_id_is_local cs.callee = true ∧
        ctx.substs_types_count cs.substs = 0 ∧ (true : Bool) = false) := by simp
    dsimp only
    rw [if_neg hgate, if_pos rfl, if_pos rfl]
  | Hint =>
    have hgate : ¬(ctx.def_id_is_local cs.callee = true ∧
        ctx.substs_types_count cs.substs = 0 ∧ (true : Bool) = false) := by simp
    have hfin : ¬((InlineAttr.Hint : InlineAttr) = InlineAttr.Always) := by decide
    dsimp only
    rw [if_neg hgate, if_neg hfin, if_neg hfin, admission_eq]
    simp [spec_threshold, hattr, HINT_THRESHOLD, DEFAULT_THRESHOLD]
  | None =>
    have hgate : ¬(ctx.def_id_is_local cs.callee = true ∧
        ctx.substs_types_count cs.substs = 0 ∧ (false : Bool) = false) := by
      intro hand
      exact h4 ⟨hand.1, hand.2.1, by simp [hattr], by simp [hattr]⟩
    have hfin : ¬((InlineAttr.None : InlineAttr) = InlineAttr.Always) := by decide
    dsimp only
    rw [if_neg hgate, if_neg hfin, if_neg hfin, admission_eq]
    simp [spec_threshold, hattr, HINT_THRESHOLD, DEFAULT_THRESHOLD]

theorem c1_admission_witness :
    should_inline ctx0 cs0 mir_ret =
      (if ctx0.inline_attr cs0.callee = InlineAttr.Always then true
       else decide (estimated_cost ctx0 cs0 mir_ret ≤ spec_threshold ctx0 cs0 mir_ret)) :=
  c1_admission ctx0 cs0 mir_ret rfl rfl (by decide) (by decide)

theorem get?_set_self {α : Type} (l : List α) (i : Nat) (a : α) (h : i < l.length) :
    (l.set i a).get? i = some a := by
  rw [List.get?_eq_getElem?]
  exact List.getElem?_set_eq_of_lt a h

theorem get?_set_other {α : Type} (l : List α) (i j : Nat) (a : α) (h : i ≠ j) :
    (l.set i a).get? j = l.get? j := by
  rw [List.get?_eq_getElem?, List.get?_eq_getElem?]
  exact List.getElem?_set_ne h

theorem get?_lt_is_some {α : Type} (l : List α) (i : Nat) (h : i < l.length) :
    ∃ a, l.get? i = some a := by
  cases hg : l.get? i with
  | none =>
    have := List.get?_eq_none.mp hg
    omega
  | some a => exact ⟨a, rfl⟩

/- The monotone core of C9: a body whose blocks carry the same terminators
and statement sums at least as large, block by block, yields a traversal
cost at least as large. -/
theorem cost_traversal_mono (ctx : Ctx) (cs : CallSite) (param_env : Nat) (mir mir' : Mir)
    (hlen : mir'.basic_blocks.length = mir.basic_blocks.length)
    (hdecls : mir'.localDecls = mir.localDecls)
    (hblocks : ∀ i, i < mir.basic_blocks.length →
      ∃ bd bd', mir.basic_blocks.get? i = some bd ∧ mir'.basic_blocks.get? i = some bd' ∧
        bd'.terminator = bd.terminator ∧
        (bd.statements.map (fun s => statement_cost s.kind)).sum ≤
          (bd'.statements.map (fun s => statement_cost s.kind)).sum) :
    ∀ (wl visited : List Nat) (cost cost' thr : Nat) (first : Bool), cost ≤ cost' →
      (cost_traversal ctx cs param_env mir wl visited cost thr first).1 ≤
      (cost_traversal ctx cs param_env mir' wl visited cost' thr first).1 := by
  intro wl visited cost cost' thr first
  induction wl, visited, cost, thr, first using cost_traversal.induct ctx cs param_env mir
    generalizing cost' with
  | case1 visited cost thr first =>
    intro h
    conv_lhs => rw [cost_traversal]
    conv_rhs => rw [cost_traversal]
    exact h
  | case2 bb wl visited cost thr first hmem ih =>
    intro h
    conv_lhs => rw [cost_traversal]
    conv_rhs => rw [cost_traversal]
    rw [if_pos hmem, if_pos hmem]
    exact ih _ h
  | case3 bb wl visited cost thr first hmem hlt ih =>
    intro h
    obtain ⟨bd, bd', hg, hg', hterm, hsum⟩ := hblocks bb hlt
    have hlt' : bb < mir'.basic_blocks.length := by rw [hlen]; exact hlt
    have hbd : mir.basic_blocks[bb] = bd := by
      have h1 : mir.basic_blocks[bb]? = some bd := by
        rw [← List.get?_eq_getElem?]
        exact hg
      rw [List.getElem?_eq_getElem hlt] at h1
      exact Option.some.inj h1
    have hbd' : mir'.basic_blocks[bb] = bd' := by
      have h1 : mir'.basic_blocks[bb]? = some bd' := by
        rw [← List.get?_eq_getElem?]
        exact hg'
      rw [List.getElem?_eq_getElem hlt'] at h1
      exact Option.some.inj h1
    rw [← hbd] at hsum
    conv_lhs => rw [cost_traversal]
    conv_rhs => rw [cost_traversal]
    rw [if_neg hmem, if_neg hmem, dif_pos hlt, dif_pos hlt', hbd', hterm, hdecls, ← hbd]
    exact ih _ (Nat.add_le_add (Nat.add_le_add h hsum) (Nat.le_refl _))
  | case4 bb wl visited cost thr first hmem hlt ih =>
    intro h
    have hlt' : ¬bb < mir'.basic_blocks.length := by rw [hlen]; exact hlt
    conv_lhs => rw [cost_traversal]
    conv_rhs => rw [cost_traversal]
    rw [if_neg hmem, if_neg hmem, dif_neg hlt, dif_neg hlt']
    exact ih _ h

/-- C9: for every callee body and callsite, appending any statement whose
cost is positive (any kind other than StorageLive, StorageDead and Nop) to
any block of the callee does not decrease the cost computed by the cost
estimator. -/
theorem c9_cost_monotone (ctx : Ctx) (cs : CallSite) (mir : Mir) (bb : Nat) (s : Statement)
    (h : 0 < statement_cost s.kind) :
    estimated_cost ctx cs mir ≤ estimated_cost ctx cs (push_stmt mir bb s) := by
  have hlen : (push_stmt mir bb s).basic_blocks.length = mir.basic_blocks.length := by
    unfold push_stmt update_block
    split
    · simp
    · rfl
  have hdecls : (push_stmt mir bb s).localDecls = mir.localDecls := by
    unfold push_stmt update_block
    split <;> rfl
  have hldc : local_decls_cost ctx cs (ctx.param_env_for_item cs.caller) (push_stmt mir bb s) =
      local_decls_cost ctx cs (ctx.param_env_for_item cs.caller) mir := by
    unfold local_decls_cost push_stmt update_block
    split <;> rfl
  have hblocks : ∀ i, i < mir.basic_blocks.length →
      ∃ bd bd', mir.basic_blocks.get? i = some bd ∧
        (push_stmt mir bb s).basic_blocks.get? i = some bd' ∧
        bd'.terminator = bd.terminator ∧
        (bd.statements.map (fun t => statement_cost t.kind)).sum ≤
          (bd'.statements.map (fun t => statement_cost t.kind)).sum := by
    intro i hi
    obtain ⟨bd, hg⟩ := get?_lt_is_some mir.basic_blocks i hi
    by_cases hib : i = bb
    · subst hib
      refine ⟨bd, { bd with statements := bd.statements ++ [s] }, hg, ?_, rfl, ?_⟩
      · unfold push_stmt update_block
        rw [hg]
        exact get?_set_self _ _ _ hi
      · simp
    · refine ⟨bd, bd, hg, ?_, rfl, Nat.le_refl _⟩
      unfold push_stmt update_block
      cases hgb : mir.basic_blocks.get? bb with
      | none => exact hg
      | some bdb =>
        show (mir.basic_blocks.set bb _).get? i = some bd
        rw [get?_set_other _ _ _ _ (fun he => hib he.symm), hg]
  unfold estimated_cost
  rw [hldc]
  exact Nat.add_le_add
    (cost_traversal_mono ctx cs (ctx.param_env_for_item cs.caller) mir (push_stmt mir bb s)
      hlen hdecls hblocks [START_BLOCK] [] 0 0 0 true (Nat.le_refl 0))
    (Nat.le_refl _)

theorem c9_cost_monotone_witness :
    estimated_cost ctx0 cs0 mir_ret ≤ estimated_cost ctx0 cs0 (push_stmt mir_ret 0 demo_stmt) :=
  c9_cost_monotone ctx0 cs0 mir_ret 0 demo_stmt (by decide)

theorem c7_cost_table_witness :
    statement_cost demo_stmt.kind = (if is_free_statement demo_stmt.kind then 0 else INSTR_COST) ∧
    (terminator_step ctx0 cs0 0 mir_ret.localDecls (.Goto 3) 50 false).1 =
      amended_term_cost (.Goto 3) :=
  ⟨(c7_cost_table ctx0 cs0 0 mir_ret.localDecls).1 demo_stmt.kind,
   (c7_cost_table ctx0 cs0 0 mir_ret.localDecls).2 (.Goto 3) 50 false rfl rfl⟩

theorem mapOption_length {α β : Type} (f : α → Option β) :
    ∀ (l : List α) (l' : List β), mapOption f l = some l' → l'.length = l.length := by
  intro l
  induction l with
  | nil => intro l' h; cases h; rfl
  | cons a rest ih =>
    intro l' h
    unfold mapOption at h
    split at h
    · exact Option.noConfusion h
    · rename_i b hb
      split at h
      · exact Option.noConfusion h
      · rename_i bs hbs
        cases h
        simp [ih bs hbs]

theorem mapOption_mem {α β : Type} (f : α → Option β) :
    ∀ (l : List α) (l' : List β), mapOption f l = some l' →
      ∀ b ∈ l', ∃ a ∈ l, f a = some b := by
  intro l
  induction l with
  | nil => intro l' h; cases h; intro b hb; simp at hb
  | cons a rest ih =>
    intro l' h
    unfold mapOption at h
    split at h
    · exact Option.noConfusion h
    · rename_i b0 hb0
      split at h
      · exact Option.noConfusion h
      · rename_i bs hbs
        cases h
        intro b hb
        rcases List.mem_cons.mp hb with rfl | hb
        · exact ⟨a, List.mem_cons_self a rest, hb0⟩
        · obtain ⟨a2, ha2, hfa2⟩ := ih bs hbs b hb
          exact ⟨a2, List.mem_cons_of_mem a ha2, hfa2⟩

theorem stmt_ext_refl (bs : List BasicBlockData) (bb : Nat) : stmt_ext bs bs bb :=
  ⟨rfl, fun _ _ => rfl, fun bd h => ⟨bd, h, rfl, rfl, [], by simp⟩⟩

theorem stmt_ext_trans {b1 b2 b3 : List BasicBlockData} {bb : Nat}
    (h12 : stmt_ext b1 b2 bb) (h23 : stmt_ext b2 b3 bb) : stmt_ext b1 b3 bb := by
  obtain ⟨l12, o12, c12⟩ := h12
  obtain ⟨l23, o23, c23⟩ := h23
  refine ⟨l23.trans l12, fun i hi => (o23 i hi).trans (o12 i hi), fun bd h => ?_⟩
  obtain ⟨bd2, hg2, ht2, hc2, e2, hs2⟩ := c12 bd h
  obtain ⟨bd3, hg3, ht3, hc3, e3, hs3⟩ := c23 bd2 hg2
  exact ⟨bd3, hg3, ht3.trans ht2, hc3.trans hc2, e2 ++ e3,
    by rw [hs3, hs2, List.append_assoc]⟩

theorem push_stmt_stmt_ext (m : Mir) (bb : Nat) (s : Statement) :
    stmt_ext m.basic_blocks (push_stmt m bb s).basic_blocks bb := by
  unfold push_stmt update_block
  cases hg : m.basic_blocks.get? bb with
  | none => exact stmt_ext_refl _ _
  | some bd =>
    have hlt : bb < m.basic_blocks.length := by
      by_contra hc
      rw [List.get?_eq_none.mpr (Nat.le_of_not_lt hc)] at hg
      exact Option.noConfusion hg
    refine ⟨by simp, fun i hi => get?_set_other _ _ _ _ (fun he => hi he.symm),
      fun bd0 h0 => ?_⟩
    have hbd : bd = bd0 := Option.some.inj (hg.symm.trans h0)
    subst hbd
    exact ⟨{ bd with statements := bd.statements ++ [s] }, get?_set_self _ _ _ hlt,
      rfl, rfl, [s], rfl⟩

theorem make_dest_stmt_ext (ctx : Ctx) (cs : CallSite) (m : Mir) (lv : Lvalue) :
    stmt_ext m.basic_blocks (make_dest ctx cs m lv).1.basic_blocks cs.bb := by
  unfold make_dest
  split
  · exact push_stmt_stmt_ext _ cs.bb _
  · exact stmt_ext_refl _ _

theorem make_call_args_stmt_ext (ctx : Ctx) (cs : CallSite) :
    ∀ (args : List Operand) (m : Mir),
      stmt_ext m.basic_blocks (make_call_args ctx cs args m).1.basic_blocks cs.bb := by
  intro args
  induction args with
  | nil => intro m; exact stmt_ext_refl _ _
  | cons a rest ih =>
    intro m
    have key : ∀ (tds : List TempDecl) (s : Statement),
        stmt_ext m.basic_blocks
          (make_call_args ctx cs rest
            (push_stmt { m with temp_decls := tds } cs.bb s)).1.basic_blocks cs.bb :=
      fun tds s =>
        stmt_ext_trans (push_stmt_stmt_ext { m with temp_decls := tds } cs.bb s) (ih _)
    cases a with
    | Consume lv =>
      cases lv
      case Temp i => exact ih m
      all_goals exact key _ _
    | Constant c => exact key _ _

theorem cast_box_free_arg_stmt_ext (ctx : Ctx) (arg : Lvalue) (ptr_ty : Ty) (cs : CallSite)
    (m : Mir) (r : Mir × Operand) (h : cast_box_free_arg ctx arg ptr_ty cs m = some r) :
    stmt_ext m.basic_blocks r.1.basic_blocks cs.bb := by
  have key : ∀ (m1 : Mir) (s1 : Statement) (tds : List TempDecl) (s2 : Statement),
      m1.basic_blocks = m.basic_blocks →
      stmt_ext m.basic_blocks
        (push_stmt { push_stmt m1 cs.bb s1 with temp_decls := tds } cs.bb s2).basic_blocks
        cs.bb := by
    intro m1 s1 tds s2 hm
    exact stmt_ext_trans (hm ▸ push_stmt_stmt_ext m1 cs.bb s1)
      (push_stmt_stmt_ext { push_stmt m1 cs.bb s1 with temp_decls := tds } cs.bb s2)
  unfold cast_box_free_arg at h
  dsimp only [] at h
  split at h
  · exact Option.noConfusion h
  · cases h
    exact key _ _ _ _ rfl

theorem integrate_scopes_blocks (ctx : Ctx) (cs : CallSite) (sp : Nat) :
    ∀ (l : List VisibilityScopeData) (m : Mir),
      (integrate_scopes ctx cs sp l m).1.basic_blocks = m.basic_blocks := by
  intro l
  induction l with
  | nil => intro m; rfl
  | cons sc rest ih => intro m; exact ih _

theorem integrate_vars_blocks (ctx : Ctx) (cs : CallSite) (sm : List Nat) :
    ∀ (l : List VarDecl) (m : Mir) (r : Mir × List Nat),
      integrate_vars ctx cs sm l m = some r → r.1.basic_blocks = m.basic_blocks := by
  intro l
  induction l with
  | nil => intro m r h; cases h; rfl
  | cons v rest ih =>
    intro m r h
    unfold integrate_vars at h
    dsimp only [] at h
    split at h
    · exact Option.noConfusion h
    · rename_i scope hsc
      split at h
      · exact Option.noConfusion h
      · rename_i r2 h2
        cases h
        have hres := ih _ _ h2
        exact hres

theorem integrate_temps_blocks :
    ∀ (l : List TempDecl) (m : Mir),
      (integrate_temps l m).1.basic_blocks = m.basic_blocks := by
  intro l
  induction l with
  | nil => intro m; rfl
  | cons t rest ih => intro m; exact ih _

theorem integrate_promoted_blocks :
    ∀ (l : List Nat) (m : Mir),
      (integrate_promoted l m).1.basic_blocks = m.basic_blocks := by
  intro l
  induction l with
  | nil => intro m; rfl
  | cons p rest ih => intro m; exact ih _

theorem unwind_update_cases (st : Integrator) (uw : Option Nat) (u : Nat)
    (h : unwind_update st uw = some u) :
    (∃ u0, uw = some u0 ∧ u = u0 + st.block_idx) ∨ st.cleanup_block = some u := by
  cases uw with
  | some u0 =>
    simp only [unwind_update, update_target, Option.some.injEq] at h
    exact Or.inl ⟨u0, rfl, h.symm⟩
  | none =>
    simp only [unwind_update] at h
    split at h
    · exact Option.noConfusion h
    · exact Or.inr h

theorem targets_ok_iff (m : Mir) : targets_ok m = true ↔
    ∀ bd ∈ m.basic_blocks, ∀ t ∈ bd.terminator.kind.successors,
      t < m.basic_blocks.length := by
  simp [targets_ok, List.all_eq_true]

theorem stmt_ext_term_of_mem {bs bs' : List BasicBlockData} {bb : Nat}
    (hsx : stmt_ext bs bs' bb) :
    ∀ bd' ∈ bs', ∃ bd ∈ bs, bd'.terminator = bd.terminator := by
  intro bd' hmem
  obtain ⟨i, hgi⟩ := List.mem_iff_get?.mp hmem
  by_cases hib : i = bb
  · subst hib
    have hlt' : i < bs'.length := by
      by_contra hc
      rw [List.get?_eq_none.mpr (Nat.le_of_not_lt hc)] at hgi
      exact Option.noConfusion hgi
    have hlt : i < bs.length := by rw [← hsx.1]; exact hlt'
    obtain ⟨bd, hbd⟩ := get?_lt_is_some bs i hlt
    obtain ⟨bd2, hg2, ht2, _, _⟩ := hsx.2.2 bd hbd
    have heq : bd' = bd2 := Option.some.inj (hgi.symm.trans hg2)
    subst heq
    exact ⟨bd, List.get?_mem hbd, ht2⟩
  · rw [hsx.2.1 i hib] at hgi
    exact ⟨bd', List.get?_mem hgi, rfl⟩

/- Where the block indices referenced by an integrated terminator can come
   from: a callee-internal successor shifted by the block offset, the
   post-call block, or the callsite cleanup block. -/
theorem visit_tk_targets (ctx : Ctx) (st : Integrator) (k k' : TerminatorKind)
    (h : visit_terminator_kind ctx st k = some k') :
    ∀ t ∈ k'.successors,
      (∃ u ∈ k.successors, t = u + st.block_idx) ∨
      t = st.return_block ∨ st.cleanup_block = some t := by
  intro t ht
  cases k with
  | Goto tgt =>
    cases h
    simp only [TerminatorKind.successors, List.mem_singleton] at ht
    exact Or.inl ⟨tgt, by simp [TerminatorKind.successors], ht⟩
  | If cond targets =>
    simp only [visit_terminator_kind] at h
    split at h
    · exact Option.noConfusion h
    · cases h
      simp only [TerminatorKind.successors, List.mem_cons, List.mem_singleton,
        List.not_mem_nil, or_false] at ht
      rcases ht with ht | ht
      · exact Or.inl ⟨targets.1, by simp [TerminatorKind.successors], ht⟩
      · exact Or.inl ⟨targets.2, by simp [TerminatorKind.successors], ht⟩
  | Switch discr targets =>
    simp only [visit_terminator_kind] at h
    split at h
    · exact Option.noConfusion h
    · cases h
      simp only [TerminatorKind.successors, List.mem_map] at ht
      obtain ⟨u, hu, hut⟩ := ht
      exact Or.inl ⟨u, by simpa [TerminatorKind.successors] using hu, hut.symm⟩
  | SwitchInt discr values targets =>
    simp only [visit_terminator_kind] at h
    split at h
    · exact Option.noConfusion h
    · cases h
      simp only [TerminatorKind.successors, List.mem_map] at ht
      obtain ⟨u, hu, hut⟩ := ht
      exact Or.inl ⟨u, by simpa [TerminatorKind.successors] using hu, hut.symm⟩
  | Drop loc tgt uw =>
    simp only [visit_terminator_kind] at h
    split at h
    · exact Option.noConfusion h
    · cases h
      cases hu : unwind_update st uw with
      | none =>
        rw [hu] at ht
        simp only [TerminatorKind.successors, List.mem_singleton] at ht
        exact Or.inl ⟨tgt, by cases uw <;> simp [TerminatorKind.successors], ht⟩
      | some u =>
        rw [hu] at ht
        simp only [TerminatorKind.successors, List.mem_cons, List.mem_singleton,
          List.not_mem_nil, or_false] at ht
        rcases ht with ht | ht
        · exact Or.inl ⟨tgt, by cases uw <;> simp [TerminatorKind.successors], ht⟩
        · subst ht
          rcases unwind_update_cases st uw t hu with ⟨u0, rfl, hval⟩ | hcb
          · exact Or.inl ⟨u0, by simp [TerminatorKind.successors], hval⟩
          · exact Or.inr (Or.inr hcb)
  | DropAndReplace loc v tgt uw =>
    simp only [visit_terminator_kind] at h
    repeat' split at h
    all_goals try exact Option.noConfusion h
    cases h
    cases hu : unwind_update st uw with
    | none =>
      rw [hu] at ht
      simp only [TerminatorKind.successors, List.mem_singleton] at ht
      exact Or.inl ⟨tgt, by cases uw <;> simp [TerminatorKind.successors], ht⟩
    | some u =>
      rw [hu] at ht
      simp only [TerminatorKind.successors, List.mem_cons, List.mem_singleton,
        List.not_mem_nil, or_false] at ht
      rcases ht with ht | ht
      · exact Or.inl ⟨tgt, by cases uw <;> simp [TerminatorKind.successors], ht⟩
      · subst ht
        rcases unwind_update_cases st uw t hu with ⟨u0, rfl, hval⟩ | hcb
        · exact Or.inl ⟨u0, by simp [TerminatorKind.successors], hval⟩
        · exact Or.inr (Or.inr hcb)
  | Call f opds ds cl =>
    simp only [visit_terminator_kind] at h
    cases ds with
    | some p =>
      obtain ⟨lv, tgt⟩ := p
      dsimp only [] at h
      split at h
      · exact Option.noConfusion h
      · split at h
        · exact Option.noConfusion h
        · cases hlv : visit_lvalue ctx st lv with
          | none =>
            rw [hlv] at h
            exact Option.noConfusion h
          | some lv2 =>
            rw [hlv] at h
            cases h
            cases hu : unwind_update st cl with
            | none =>
              rw [hu] at ht
              simp only [TerminatorKind.successors, List.mem_singleton] at ht
              exact Or.inl ⟨tgt, by cases cl <;> simp [TerminatorKind.successors], ht⟩
            | some u =>
              rw [hu] at ht
              simp only [TerminatorKind.successors, List.mem_cons, List.mem_singleton,
                List.not_mem_nil, or_false] at ht
              rcases ht with ht | ht
              · exact Or.inl ⟨tgt, by cases cl <;> simp [TerminatorKind.successors], ht⟩
              · subst ht
                rcases unwind_update_cases st cl t hu with ⟨u0, rfl, hval⟩ | hcb
                · exact Or.inl ⟨u0, by simp [TerminatorKind.successors], hval⟩
                · exact Or.inr (Or.inr hcb)
    | none =>
      split at h
      · exact Option.noConfusion h
      · split at h
        · exact Option.noConfusion h
        · cases h
          cases hu : unwind_update st cl with
          | none =>
            rw [hu] at ht
            simp [TerminatorKind.successors] at ht
          | some u =>
            rw [hu] at ht
            simp only [TerminatorKind.successors, List.mem_singleton] at ht
            subst ht
            rcases unwind_update_cases st cl t hu with ⟨u0, rfl, hval⟩ | hcb
            · exact Or.inl ⟨u0, by simp [TerminatorKind.successors], hval⟩
            · exact Or.inr (Or.inr hcb)
  | Assert cond e tgt cl =>
    simp only [visit_terminator_kind] at h
    split at h
    · exact Option.noConfusion h
    · cases h
      cases hu : unwind_update st cl with
      | none =>
        rw [hu] at ht
        simp only [TerminatorKind.successors, List.mem_singleton] at ht
        exact Or.inl ⟨tgt, by cases cl <;> simp [TerminatorKind.successors], ht⟩
      | some u =>
        rw [hu] at ht
        simp only [TerminatorKind.successors, List.mem_cons, List.mem_singleton,
          List.not_mem_nil, or_false] at ht
        rcases ht with ht | ht
        · exact Or.inl ⟨tgt, by cases cl <;> simp [TerminatorKind.successors], ht⟩
        · subst ht
          rcases unwind_update_cases st cl t hu with ⟨u0, rfl, hval⟩ | hcb
          · exact Or.inl ⟨u0, by simp [TerminatorKind.successors], hval⟩
          · exact Or.inr (Or.inr hcb)
  | Return =>
    cases h
    simp only [TerminatorKind.successors, List.mem_singleton] at ht
    exact Or.inr (Or.inl ht)
  | Resume =>
    simp only [visit_terminator_kind] at h
    cases hc : st.cleanup_block with
    | some c =>
      rw [hc] at h
      cases h
      simp only [TerminatorKind.successors, List.mem_singleton] at ht
      subst ht
      exact Or.inr (Or.inr rfl)
    | none =>
      rw [hc] at h
      cases h
      simp [TerminatorKind.successors] at ht
  | Unreachable =>
    cases h
    simp [TerminatorKind.successors] at ht

theorem visit_block_targets (ctx : Ctx) (st : Integrator) (bd bd' : BasicBlockData)
    (h : visit_basic_block_data ctx st bd = some bd') :
    ∀ t ∈ bd'.terminator.kind.successors,
      (∃ u ∈ bd.terminator.kind.successors, t = u + st.block_idx) ∨
      t = st.return_block ∨ st.cleanup_block = some t := by
  unfold visit_basic_block_data at h
  dsimp only [] at h
  split at h
  · exact Option.noConfusion h
  · rename_i stmts hstmts
    split at h
    · exact Option.noConfusion h
    · rename_i term hterm
      cases h
      unfold visit_terminator at hterm
      split at hterm
      · exact Option.noConfusion hterm
      · rename_i si2 hsi
        split at hterm
        · exact Option.noConfusion hterm
        · rename_i k2 hk2
          cases hterm
          have hres := visit_tk_targets ctx
            { st with in_cleanup_block := bd.is_cleanup } bd.terminator.kind k2 hk2
          exact hres

/-- C3: after every accepted inlining of a well-formed callee body into a
well-formed caller body, every block index referenced by any terminator of
the resulting caller body — Goto targets, branch targets, Call/Drop/Assert
targets and unwind edges alike — is strictly below the resulting block
count; the pre-existing blocks keep their indices (so the entry block stays
at index 0), with only the callsite block changed, by appending statements
and retargeting its terminator onto the first inlined block. -/
theorem c3_blocks_in_range (ctx : Ctx) (cs : CallSite) (caller callee m : Mir)
    (hok : targets_ok caller = true) (hok2 : targets_ok callee = true)
    (hne : 0 < callee.basic_blocks.length)
    (hbb : cs.bb < caller.basic_blocks.length)
    (hcall : inline_call ctx cs caller callee = some (true, m)) :
    targets_ok m = true ∧
    caller.basic_blocks.length ≤ m.basic_blocks.length ∧
    (∀ i, i ≠ cs.bb → i < caller.basic_blocks.length →
      m.basic_blocks.get? i = caller.basic_blocks.get? i) ∧
    (∃ bd bd', caller.basic_blocks.get? cs.bb = some bd ∧
      m.basic_blocks.get? cs.bb = some bd' ∧
      bd'.is_cleanup = bd.is_cleanup ∧
      bd'.terminator = { source_info := cs.location,
                         kind := .Goto caller.basic_blocks.length } ∧
      ∃ extra, bd'.statements = bd.statements ++ extra) := by
  unfold inline_call at hcall
  by_cases hself : cs.caller = cs.callee
  · rw [if_pos hself] at hcall
    simp at hcall
  · rw [if_neg hself] at hcall
    obtain ⟨blk, hblk⟩ := get?_lt_is_some caller.basic_blocks cs.bb hbb
    rw [hblk] at hcall
    dsimp only [] at hcall
    cases hk : blk.terminator.kind with
    | Goto t => rw [hk] at hcall; dsimp only [] at hcall; simp at hcall
    | If c ts => rw [hk] at hcall; dsimp only [] at hcall; simp at hcall
    | Switch d ts => rw [hk] at hcall; dsimp only [] at hcall; simp at hcall
    | SwitchInt d vs ts => rw [hk] at hcall; dsimp only [] at hcall; simp at hcall
    | Drop l t u => rw [hk] at hcall; dsimp only [] at hcall; simp at hcall
    | DropAndReplace l v t u => rw [hk] at hcall; dsimp only [] at hcall; simp at hcall
    | Assert c e t u => rw [hk] at hcall; dsimp only [] at hcall; simp at hcall
    | Resume => rw [hk] at hcall; dsimp only [] at hcall; simp at hcall
    | Return => rw [hk] at hcall; dsimp only [] at hcall; simp at hcall
    | Unreachable => rw [hk] at hcall; dsimp only [] at hcall; simp at hcall
    | Call f args ds cl =>
      rw [hk] at hcall
      cases ds with
      | none =>
        dsimp only [] at hcall
        simp at hcall
      | some dest =>
        dsimp only [] at hcall
        split at hcall
        · exact Option.noConfusion hcall
        · rename_i vres hv
          split at hcall
          · exact Option.noConfusion hcall
          · rename_i ares ha
            split at hcall
            · exact Option.noConfusion hcall
            · rename_i new_blocks hnb
              rw [Option.some.injEq, Prod.mk.injEq] at hcall
              obtain ⟨-, hm⟩ := hcall
              have hPb : (integrate_promoted callee.promoted
                  (integrate_temps callee.temp_decls vres.1).1).1.basic_blocks
                  = caller.basic_blocks := by
                rw [integrate_promoted_blocks, integrate_temps_blocks,
                  integrate_vars_blocks ctx cs _ _ _ _ hv, integrate_scopes_blocks]
              have hdx : stmt_ext caller.basic_blocks
                  (make_dest ctx cs (integrate_promoted callee.promoted
                    (integrate_temps callee.temp_decls vres.1).1).1
                    dest.1).1.basic_blocks cs.bb :=
                hPb ▸ make_dest_stmt_ext ctx cs _ dest.1
              have hsx : stmt_ext caller.basic_blocks ares.1.basic_blocks cs.bb := by
                split at ha
                · split at ha
                  · split at ha
                    · split at ha
                      · exact Option.noConfusion ha
                      · rename_i r hc
                        cases ha
                        exact stmt_ext_trans hdx
                          (cast_box_free_arg_stmt_ext ctx _ _ cs _ r hc)
                    · exact Option.noConfusion ha
                  · exact Option.noConfusion ha
                · cases ha
                  exact stmt_ext_trans hdx (make_call_args_stmt_ext ctx cs args _)
              have hlen : ares.1.basic_blocks.length = caller.basic_blocks.length := hsx.1
              have hnlen : new_blocks.length = callee.basic_blocks.length :=
                mapOption_length _ _ _ hnb
              obtain ⟨bd1, hg1, ht1, hc1, extra, hs1⟩ := hsx.2.2 blk hblk
              have hgB : (ares.1.basic_blocks ++ new_blocks).get? cs.bb = some bd1 := by
                rw [List.get?_append (by rw [hlen]; exact hbb)]
                exact hg1
              have hmb : m.basic_blocks = (ares.1.basic_blocks ++ new_blocks).set cs.bb
                  { bd1 with terminator := { source_info := cs.location, kind := .Goto ares.1.basic_blocks.length } } := by
                rw [← hm]
                simp only [set_block_terminator, update_block, hgB]
              have hmlen : m.basic_blocks.length =
                  caller.basic_blocks.length + callee.basic_blocks.length := by
                rw [hmb, List.length_set, List.length_append, hlen, hnlen]
              have hother : ∀ i, i ≠ cs.bb → i < caller.basic_blocks.length →
                  m.basic_blocks.get? i = caller.basic_blocks.get? i := by
                intro i hi hilt
                rw [hmb, get?_set_other _ _ _ _ (fun he => hi he.symm),
                  List.get?_append (by rw [hlen]; exact hilt)]
                exact hsx.2.1 i hi
              have hnewbb : m.basic_blocks.get? cs.bb = some
                  { bd1 with terminator := { source_info := cs.location, kind := .Goto ares.1.basic_blocks.length } } := by
                rw [hmb]
                exact get?_set_self _ _ _
                  (by rw [List.length_append, hlen]
                      exact Nat.lt_of_lt_of_le hbb (Nat.le_add_right _ _))
              refine ⟨?_, by rw [hmlen]; exact Nat.le_add_right _ _, hother,
                blk, _, hblk, hnewbb, hc1, by rw [hlen], extra, hs1⟩
              rw [targets_ok_iff]
              intro bd hbd t ht
              rw [hmlen]
              rw [hmb] at hbd
              rcases List.mem_or_eq_of_mem_set hbd with hbd | rfl
              · rcases List.mem_append.mp hbd with hbd | hbd
                · obtain ⟨bd0, hbd0, hterm⟩ := stmt_ext_term_of_mem hsx bd hbd
                  rw [hterm] at ht
                  exact Nat.lt_of_lt_of_le ((targets_ok_iff caller).mp hok bd0 hbd0 t ht)
                    (Nat.le_add_right _ _)
                · obtain ⟨src, hsrc, hvb⟩ := mapOption_mem _ _ _ hnb bd hbd
                  have hprv := visit_block_targets ctx _ src bd hvb t ht
                  dsimp only [] at hprv
                  rcases hprv with ⟨u, hu, rfl⟩ | rfl | htc
                  · have hu2 : u < callee.basic_blocks.length :=
                      (targets_ok_iff callee).mp hok2 src hsrc u hu
                    rw [hlen]
                    omega
                  · have hmem : dest.2 ∈ blk.terminator.kind.successors := by
                      rw [hk]
                      cases cl <;> simp [TerminatorKind.successors]
                    exact Nat.lt_of_lt_of_le
                      ((targets_ok_iff caller).mp hok blk (List.get?_mem hblk) _ hmem)
                      (Nat.le_add_right _ _)
                  · have hmem : t ∈ blk.terminator.kind.successors := by
                      rw [hk, htc]
                      simp [TerminatorKind.successors]
                    exact Nat.lt_of_lt_of_le
                      ((targets_ok_iff caller).mp hok blk (List.get?_mem hblk) _ hmem)
                      (Nat.le_add_right _ _)
              · simp only [TerminatorKind.successors, List.mem_singleton] at ht
                subst ht
                rw [hlen]
                omega

theorem c3_blocks_in_range_witness :
    targets_ok caller0 = true ∧ targets_ok mir_ret = true ∧
    0 < mir_ret.basic_blocks.length ∧ cs0.bb < caller0.basic_blocks.length ∧
    targets_ok inlined0 = true ∧
    caller0.basic_blocks.length ≤ inlined0.basic_blocks.length := by
  have h := c3_blocks_in_range ctx0 cs0 caller0 mir_ret inlined0 (by decide) (by decide)
    (by decide) (by decide) (by rfl)
  exact ⟨by decide, by decide, by decide, by decide, h.1, h.2.1⟩

end MirInline
